import Mathlib

/-!
Verification of the seed_pipeline repository against its specification.

The development shallowly embeds the Python sources:
  * `seed_pipeline/normalize/text.py`   (string normalisation)
  * `seed_pipeline/ingest/validate.py`  (record validation)
  * `seed_pipeline/ingest/batch.py`     (batch ingestion engine)
  * `seed_pipeline/adapters/generic_responses_v1.py` (the adapter)
  * `seed_pipeline/api/routers/seeds.py` (the read-only diff query)

Python strings are modelled as `List Char` internally and `String` at the
API boundary.  Machinery the source delegates to libraries (the MD5 and
SHA-256 digests, the JSON parser, `json.dumps`) is abstracted as explicit
function parameters, because every claim depends only on those digests
being functions of their input, never on particular digest values.
-/

namespace SeedPipeline

/-! ## Character-level primitives

`pyIsSpace` is the exact whitespace predicate used by Python's
`str.strip`, `str.isspace` and the `re` module's whitespace class for
`str` patterns (`Py_UNICODE_ISSPACE`): the code points 09-0D, 1C-1F, 20,
85, A0, 1680, 2000-200A, 2028, 2029, 202F, 205F and 3000. -/
def pyIsSpace (c : Char) : Bool :=
  (9 ≤ c.toNat && c.toNat ≤ 13) || (28 ≤ c.toNat && c.toNat ≤ 32) ||
  c.toNat = 0x85 || c.toNat = 0xA0 || c.toNat = 0x1680 ||
  (0x2000 ≤ c.toNat && c.toNat ≤ 0x200A) || c.toNat = 0x2028 ||
  c.toNat = 0x2029 || c.toNat = 0x202F || c.toNat = 0x205F || c.toNat = 0x3000

/-- Python `str.lower`, character-wise.  Modelled exactly on the ASCII
range; every non-ASCII character appearing in this development ('ë',
'ᴷ', 'ﬁ', U+0308) is fixed by Python's `lower`, so outside the ASCII
range the model is the identity, matching the source's behaviour on
every character this file mentions. -/
def pyLowerChar (c : Char) : List Char :=
  if 65 ≤ c.toNat && c.toNat ≤ 90 then [Char.ofNat (c.toNat + 32)] else [c]

/-- The NFKD (compatibility) decomposition used by
`unicodedata.normalize("NFKD", ...)`, character-wise, fully expanded.
The table covers the non-ASCII characters appearing in this
development, taken from the Unicode character database:
  U+00EB ë  -> e U+0308            (canonical decomposition)
  U+1D37 ᴷ  -> K                   (compatibility, <super> 004B)
  U+FB01 ﬁ  -> f i                 (compatibility, <compat> 0066 0069)
Every ASCII character decomposes to itself. -/
def nfkdChar (c : Char) : List Char :=
  if c = 'ë' then ['e', Char.ofNat 0x308]
  else if c = 'ᴷ' then ['K']
  else if c = 'ﬁ' then ['f', 'i']
  else [c]

/-- The NFD (canonical) decomposition, character-wise, for the same
character fragment.  Canonical decompositions exclude the
compatibility-only mappings: 'ᴷ' and 'ﬁ' are NFD-stable. -/
def nfdChar (c : Char) : List Char :=
  if c = 'ë' then ['e', Char.ofNat 0x308] else [c]

/-- `unicodedata.combining(ch) != 0`.  U+0308 COMBINING DIAERESIS is the
only combining mark produced by the decompositions modelled here. -/
def isCombining (c : Char) : Bool :=
  c.toNat = 0x308

/-! ## String-level normalisation steps (`normalize/text.py`) -/

/-- Python `str.strip()`: drop leading and trailing whitespace. -/
def pyStrip (l : List Char) : List Char :=
  ((l.dropWhile pyIsSpace).reverse.dropWhile pyIsSpace).reverse

/-- Python `str.lower()` over a whole string. -/
def pyLower (l : List Char) : List Char :=
  l.flatMap pyLowerChar

/-- `_strip_accents` from `normalize/text.py`: NFKD-decompose, then drop
all combining marks. -/
def stripAccents (l : List Char) : List Char :=
  (l.flatMap nfkdChar).filter (fun c => !isCombining c)

/-- State machine for `_WHITESPACE_RE.sub(" ", text)`.  `inRun` records
whether the previous character was whitespace, in which case the single
`' '` replacing the current whitespace run has already been emitted. -/
def collapseWsAux : Bool → List Char → List Char
  | _, [] => []
  | inRun, a :: rest =>
    if pyIsSpace a then
      if inRun then collapseWsAux true rest else ' ' :: collapseWsAux true rest
    else a :: collapseWsAux false rest

/-- `_WHITESPACE_RE.sub(" ", text)`: replace every maximal run of
whitespace characters by a single ASCII space. -/
def collapseWs (l : List Char) : List Char :=
  collapseWsAux false l

/-- What the regex `(.)\1{2,}` substitution emits for a completed run of
`k` copies of `c`: a single copy when the run had length three or more
(and `c` is not a newline, which `.` does not match), the run unchanged
otherwise. -/
def repeatEmit (c : Char) (k : Nat) : List Char :=
  if c ≠ '\n' ∧ 3 ≤ k then [c] else List.replicate k c

/-- State machine for the `_REPEATS_RE` substitution: `c` is the
character of the run currently being read and `k` how many copies of it
have been read so far. -/
def collapseRepeatsAux (c : Char) (k : Nat) : List Char → List Char
  | [] => repeatEmit c k
  | d :: rest =>
    if d = c then collapseRepeatsAux c (k + 1) rest
    else repeatEmit c k ++ collapseRepeatsAux d 1 rest

/-- `_REPEATS_RE.sub(...)`: the regex `(.)\1{2,}` replaces every maximal
run of three-or-more identical characters by a single occurrence. -/
def collapseRepeats : List Char → List Char
  | [] => []
  | c :: rest => collapseRepeatsAux c 1 rest

/-- `normalize_text` from `normalize/text.py`, on character lists: trim,
lowercase, strip accents (NFKD + drop combining marks), collapse
whitespace, optionally collapse repeats. -/
def normCore (l : List Char) (collapse_repeats : Bool) : List Char :=
  let t1 := pyStrip l
  let t2 := pyLower t1
  let t3 := stripAccents t2
  let t4 := collapseWs t3
  if collapse_repeats then collapseRepeats t4 else t4

/-- `normalize_text(text, collapse_repeats=False)`. -/
def normalize_text (s : String) (collapse_repeats : Bool) : String :=
  ⟨normCore s.data collapse_repeats⟩

/-- `normalize_seed`: delegates to `normalize_text`. -/
def normalize_seed (s : String) (collapse_repeats : Bool) : String :=
  normalize_text s collapse_repeats

/-- `normalize_variation`: delegates to `normalize_text`. -/
def normalize_variation (s : String) (collapse_repeats : Bool) : String :=
  normalize_text s collapse_repeats

/-! ## Python values and canonical records

Every Python value flowing through the pipeline originates from
`json.load`, so parsed-JSON values serve as the universe of Python
values: `Json.null` stands both for Python `None` and for an absent
dict key (`dict.get` returns `None` for both).  JSON numbers are
modelled as integers; no claim depends on floating-point arithmetic
(floating-point scores are carried opaquely, never computed with).
The array and object constructors recurse through dedicated mutual
list types rather than `List` so that decidable equality is
derivable. -/

mutual

inductive Json where
  | null
  | jbool (b : Bool)
  | jnum (n : Int)
  | jstr (s : String)
  | jarr (xs : JsonList)
  | jobj (kvs : JsonKVs)
deriving DecidableEq

inductive JsonList where
  | nil
  | cons (x : Json) (xs : JsonList)
deriving DecidableEq

inductive JsonKVs where
  | nil
  | cons (k : String) (v : Json) (rest : JsonKVs)
deriving DecidableEq

end

def JsonList.toList : JsonList → List Json
  | .nil => []
  | .cons x xs => x :: xs.toList

def JsonList.ofList : List Json → JsonList
  | [] => .nil
  | x :: xs => .cons x (ofList xs)

def JsonKVs.toList : JsonKVs → List (String × Json)
  | .nil => []
  | .cons k v rest => (k, v) :: rest.toList

def JsonKVs.ofList : List (String × Json) → JsonKVs
  | [] => .nil
  | (k, v) :: rest => .cons k v (ofList rest)

/-- Python truthiness of the modelled values. -/
def truthy : Json → Bool
  | .null => false
  | .jbool b => b
  | .jnum n => n != 0
  | .jstr s => s != ""
  | .jarr .nil => false
  | .jarr _ => true
  | .jobj .nil => false
  | .jobj _ => true

/-- `isinstance(v, str)`. -/
def isStr : Json → Bool
  | .jstr _ => true
  | _ => false

/-- Extract the string of a value known to be a `str` (used only after
a check has established `isStr`). -/
def asStr : Json → String
  | .jstr s => s
  | _ => ""

/-- Python `str(v)`.  Faithful on scalars; no claim inspects the
rendering of containers, so their `repr`-style text is not modelled. -/
def pyStr : Json → String
  | .jstr s => s
  | .jnum n => toString n
  | .jbool true => "True"
  | .jbool false => "False"
  | .null => "None"
  | .jarr _ => "<container>"
  | .jobj _ => "<container>"

/-- `dict.get(key)` on a JSON object's key-value list. -/
def jget (kvs : JsonKVs) (k : String) : Option Json :=
  (kvs.toList.find? (fun kv => kv.1 == k)).map (fun kv => kv.2)

/-- A canonical record as produced by an adapter: a dict with the keys
`seed`, `variation`, `miner_ext_id`, `score` and `raw`; `Json.null`
stands for an absent key. -/
structure PyRecord where
  seed : Json
  variation : Json
  miner_ext_id : Json
  score : Json
  raw : Json
deriving DecidableEq

/-- `validate_record` from `ingest/validate.py`: reject unless both
`seed` and `variation` are truthy strings. -/
def validate_record (record : PyRecord) : Bool × Option String :=
  if !truthy record.seed || !isStr record.seed then
    (false, some "missing or invalid seed")
  else if !truthy record.variation || !isStr record.variation then
    (false, some "missing or invalid variation")
  else (true, none)

/-! ## The relational store (`db/models.py`)

One structure per table.  `created_at`/`observed_at`/`processed_at`
timestamp columns are omitted: they are wall-clock defaults never read
by any code under verification and no claim mentions them. -/

structure SeedRow where
  id : Nat
  seed_text : String
  normalized_seed : String
  seed_hash : String
deriving DecidableEq

structure VariationRow where
  id : Nat
  seed_id : Nat
  variation_text : String
  normalized_variation : String
  variation_hash : String
deriving DecidableEq

structure MinerRow where
  id : Nat
  miner_external_id : Json
deriving DecidableEq

structure BatchRow where
  id : Nat
  batch_name : String
deriving DecidableEq

structure SourceFileRow where
  id : Nat
  batch_id : Nat
  file_path : String
  file_checksum : String
  record_count : Option Nat
deriving DecidableEq

structure ObservationRow where
  id : Nat
  seed_id : Nat
  variation_id : Nat
  miner_id : Option Nat
  batch_id : Option Nat
  source_file_id : Option Nat
  score : Json
  raw_payload : Option String
deriving DecidableEq

/-- The persisted entity graph, together with the per-table
autoincrement counters. -/
structure Store where
  seeds : List SeedRow
  variations : List VariationRow
  miners : List MinerRow
  batches : List BatchRow
  source_files : List SourceFileRow
  observations : List ObservationRow
  next_seed_id : Nat
  next_variation_id : Nat
  next_miner_id : Nat
  next_batch_id : Nat
  next_source_file_id : Nat
  next_observation_id : Nat
deriving DecidableEq

def emptyStore : Store :=
  ⟨[], [], [], [], [], [], 1, 1, 1, 1, 1, 1⟩

/-- `Metrics` from `ingest/metrics.py`. -/
structure Metrics where
  seeds_new : Nat
  seeds_existing : Nat
  variations_new : Nat
  variations_existing : Nat
  observations_inserted : Nat
  files_processed : Nat
  files_skipped : Nat
  invalid_records : Nat
deriving DecidableEq

def Metrics.init : Metrics := ⟨0, 0, 0, 0, 0, 0, 0, 0⟩

/-- One input file.  `is_file` is `path.is_file()`; the byte content
stands for what open/read would return. -/
structure IFile where
  path : String
  content : List Nat
  is_file : Bool
deriving DecidableEq

/-- The library functions the engine delegates to, abstracted as
parameters: `md5_hex` (a fixed-width digest of the normalized text),
`compute_checksum` (the streamed SHA-256 of the file bytes, a function
of content only), `load_json` (`json.load`, `none` when parsing
raises), and `dumps` (`json.dumps` for the raw payload).  Every claim
depends only on these being functions of their inputs, never on
particular digest values, so abstracting them loses nothing. -/
structure Env where
  md5_hex : String → String
  compute_checksum : List Nat → String
  load_json : List Nat → Option Json
  dumps : Json → String

/-! ## Get-or-create operations (`ingest/batch.py`)

SQLAlchemy session semantics are modelled with two `Store` values: the
`working` store is what the open session sees (pending, flushed rows
included — `session.flush` makes rows visible to later queries in the
same transaction), the `committed` store is what is durable.
`session.commit()` sets `committed := working`; closing the session
without committing discards `working`.  `scalar_one_or_none` is
modelled as `find?`; it raises on multiple matches, which the
uniqueness invariants proved below rule out on reachable stores. -/

def _get_or_create_batch (s : Store) (batch_name : String) : BatchRow × Store :=
  match s.batches.find? (fun b => b.batch_name == batch_name) with
  | some b => (b, s)
  | none =>
    let b : BatchRow := ⟨s.next_batch_id, batch_name⟩
    (b, { s with batches := s.batches ++ [b], next_batch_id := s.next_batch_id + 1 })

def _get_or_create_seed (s : Store) (raw_seed norm_seed seed_hash : String)
    (metrics : Metrics) : SeedRow × Store × Metrics :=
  match s.seeds.find? (fun r => r.normalized_seed == norm_seed) with
  | some r => (r, s, { metrics with seeds_existing := metrics.seeds_existing + 1 })
  | none =>
    let r : SeedRow := ⟨s.next_seed_id, raw_seed, norm_seed, seed_hash⟩
    (r, { s with seeds := s.seeds ++ [r], next_seed_id := s.next_seed_id + 1 },
     { metrics with seeds_new := metrics.seeds_new + 1 })

def _get_or_create_variation (s : Store) (seed : SeedRow)
    (raw_variation norm_variation variation_hash : String) (metrics : Metrics) :
    VariationRow × Store × Metrics :=
  match s.variations.find?
      (fun v => v.seed_id == seed.id && v.normalized_variation == norm_variation) with
  | some v => (v, s, { metrics with variations_existing := metrics.variations_existing + 1 })
  | none =>
    let v : VariationRow :=
      ⟨s.next_variation_id, seed.id, raw_variation, norm_variation, variation_hash⟩
    (v, { s with variations := s.variations ++ [v],
                 next_variation_id := s.next_variation_id + 1 },
     { metrics with variations_new := metrics.variations_new + 1 })

def _get_or_create_miner (s : Store) (ext_id : Json) : Option MinerRow × Store :=
  if !truthy ext_id then (none, s)
  else
    match s.miners.find? (fun m => m.miner_external_id == ext_id) with
    | some m => (some m, s)
    | none =>
      let m : MinerRow := ⟨s.next_miner_id, ext_id⟩
      (some m, { s with miners := s.miners ++ [m], next_miner_id := s.next_miner_id + 1 })

/-! ## The per-record and per-file loops of `ingest_batch` -/

/-- State threaded through one file's record loop: the session's
working store, the metrics, and the `record_count` local. -/
structure FileState where
  store : Store
  metrics : Metrics
  record_count : Nat
deriving DecidableEq

/-- Lines 175-216 of `ingest/batch.py`: validate, normalise, upsert
seed/variation/miner, and (unless `dry_run`) insert an Observation.
`observations_inserted` and `record_count` are incremented for every
accepted record, dry-run included. -/
def processRecord (env : Env) (batch_id : Nat) (src_file_id : Option Nat)
    (dry_run : Bool) (st : FileState) (rec : PyRecord) : FileState :=
  if !(validate_record rec).1 then
    { st with metrics :=
        { st.metrics with invalid_records := st.metrics.invalid_records + 1 } }
  else
    let raw_seed := asStr rec.seed
    let raw_variation := asStr rec.variation
    let norm_seed := normalize_seed raw_seed false
    let norm_variation := normalize_variation raw_variation false
    let seed_hash := env.md5_hex norm_seed
    let variation_hash := env.md5_hex norm_variation
    let gs := _get_or_create_seed st.store raw_seed norm_seed seed_hash st.metrics
    let gv := _get_or_create_variation gs.2.1 gs.1 raw_variation norm_variation
      variation_hash gs.2.2
    let gm :=
      if truthy rec.miner_ext_id then _get_or_create_miner gv.2.1 rec.miner_ext_id
      else (none, gv.2.1)
    let s4 :=
      if !dry_run then
        let obs : ObservationRow :=
          ⟨gm.2.next_observation_id, gs.1.id, gv.1.id,
           gm.1.map (fun m => m.id), some batch_id, src_file_id, rec.score,
           if truthy rec.raw then some (env.dumps rec.raw) else none⟩
        { gm.2 with observations := gm.2.observations ++ [obs],
                    next_observation_id := gm.2.next_observation_id + 1 }
      else gm.2
    ⟨s4,
     { gv.2.2 with observations_inserted := gv.2.2.observations_inserted + 1 },
     st.record_count + 1⟩

/-- Lines 163-172: unless `dry_run`, create the SourceFile row (with
`record_count` still NULL) and flush it into the session before any of
the file's records are processed. -/
def sourceFilePhase (s : Store) (batch_id : Nat) (path checksum : String)
    (dry_run : Bool) : Store × Option Nat :=
  if dry_run then (s, none)
  else
    let row : SourceFileRow := ⟨s.next_source_file_id, batch_id, path, checksum, none⟩
    ({ s with source_files := s.source_files ++ [row],
              next_source_file_id := s.next_source_file_id + 1 },
     some row.id)

/-- Line 219: `src_file.record_count = record_count`. -/
def setRecordCount (s : Store) (src_file_id : Option Nat) (cnt : Nat) : Store :=
  match src_file_id with
  | none => s
  | some i =>
    { s with source_files :=
        s.source_files.map (fun r => if r.id = i then { r with record_count := some cnt } else r) }

/-- State threaded through the file loop of one `ingest_batch` run. -/
structure RunState where
  working : Store
  committed : Store
  metrics : Metrics
deriving DecidableEq

/-- Lines 141-223 of `ingest/batch.py`, for one file: skip non-regular
files silently; compute the content checksum; under `resume`, skip the
file when a SourceFile with this batch and checksum already exists;
parse the JSON (a failure counts one invalid record); create the
SourceFile row; run the record loop; set `record_count`; count the
file processed; and, unless `dry_run`, commit the file's transaction
(`committed := working`). -/
def processFile (env : Env) (adapter : Json → List PyRecord) (batch_id : Nat)
    (dry_run resume : Bool) (st : RunState) (f : IFile) : RunState :=
  if !f.is_file then st
  else
    let checksum := env.compute_checksum f.content
    if resume && (st.working.source_files.find?
        (fun r => r.batch_id == batch_id && r.file_checksum == checksum)).isSome then
      { st with metrics :=
          { st.metrics with files_skipped := st.metrics.files_skipped + 1 } }
    else
      match env.load_json f.content with
      | none =>
        { st with metrics :=
            { st.metrics with invalid_records := st.metrics.invalid_records + 1 } }
      | some data =>
        let ws := sourceFilePhase st.working batch_id f.path checksum dry_run
        let fs := (adapter data).foldl (processRecord env batch_id ws.2 dry_run)
          ⟨ws.1, st.metrics, 0⟩
        let w2 := if !dry_run then setRecordCount fs.store ws.2 fs.record_count
                  else fs.store
        let m2 := { fs.metrics with files_processed := fs.metrics.files_processed + 1 }
        ⟨w2, if !dry_run then w2 else st.committed, m2⟩

/-- `ingest_batch(batch_name, files, adapter_name, *, dry_run, resume,
workers)` from `ingest/batch.py`, with the adapter already resolved
(the source resolves `adapter_name` through the registry up front and
fails fast on an unknown name) and the unused `workers` parameter
omitted.  Takes the durable store the session opens on and returns the
metrics together with the durable store after the session closes
(closing without a commit rolls the working state back). -/
def ingest_batch (env : Env) (adapter : Json → List PyRecord) (batch_name : String)
    (files : List IFile) (dry_run resume : Bool) (committed0 : Store) :
    Metrics × Store :=
  let working0 := committed0
  let bs := _get_or_create_batch working0 batch_name
  let final := files.foldl (processFile env adapter bs.1.id dry_run resume)
    ⟨bs.2, committed0, Metrics.init⟩
  (final.metrics, final.committed)

/-- The durable store left behind when the process is interrupted after
`k` records of a single file's record loop, before the end-of-file
commit: the run follows `ingest_batch` up to that point, but the
session's transaction is still open when the process dies, so the
working state is rolled back and the durable store is the committed
one — which the per-file code has not touched. -/
def ingest_crash_mid_file (env : Env) (adapter : Json → List PyRecord)
    (batch_name : String) (f : IFile) (resume : Bool) (k : Nat)
    (committed0 : Store) : Store :=
  let bs := _get_or_create_batch committed0 batch_name
  if !f.is_file then committed0
  else
    let checksum := env.compute_checksum f.content
    if resume && (bs.2.source_files.find?
        (fun r => r.batch_id == bs.1.id && r.file_checksum == checksum)).isSome then
      committed0
    else
      match env.load_json f.content with
      | none => committed0
      | some data =>
        let ws := sourceFilePhase bs.2 bs.1.id f.path checksum false
        let fs := ((adapter data).take k).foldl
          (processRecord env bs.1.id ws.2 false) ⟨ws.1, Metrics.init, 0⟩
        -- the crash happens here: `fs.store` is the uncommitted working
        -- state and is lost; the durable store is still `committed0`
        let _ := fs
        committed0

/-! ## The adapter (`adapters/generic_responses_v1.py`) and registry -/

/-- `_get_miner_id`'s fallback: `uid = resp.get("uid"); if uid is not
None: return str(uid)` — note the `is not None` test, not truthiness. -/
def _uid_fallback (resp : JsonKVs) : Option String :=
  match jget resp "uid" with
  | none => none
  | some .null => none
  | some v => some (pyStr v)

/-- `_get_miner_id`: the `hotkey` field if truthy, else the `uid`
field if present and not `None`, else `None`. -/
def _get_miner_id (resp : JsonKVs) : Option String :=
  match jget resp "hotkey" with
  | some h => if truthy h then some (pyStr h) else _uid_fallback resp
  | none => _uid_fallback resp

/-- `parse` from `adapters/generic_responses_v1.py`: for each response
object under the top-level `responses` object, for each
`seed -> variations` entry of its `variations` mapping, yield one
canonical record per truthy variation; every shape mismatch is skipped
with `continue`/`return`, never raised. -/
def parse (obj : Json) : List PyRecord :=
  match obj with
  | .jobj kvs =>
    match jget kvs "responses" with
    | some (.jobj resps) =>
      resps.toList.flatMap (fun kv =>
        match kv.2 with
        | .jobj resp =>
          let miner_id := _get_miner_id resp
          match (jget resp "variations").getD (.jobj .nil) with
          | .jobj vmap =>
            vmap.toList.flatMap (fun sv =>
              match sv.2 with
              | .jarr vars =>
                vars.toList.filterMap (fun variation =>
                  if !truthy variation then none
                  else some ⟨.jstr sv.1, variation,
                             (match miner_id with
                              | some s => .jstr s
                              | none => .null),
                             .null, .null⟩)
              | _ => [])
          | _ => []
        | _ => [])
    | _ => []
  | _ => []

/-- The adapter registry (`adapters/registry.py`): `none` models the
`KeyError("Unknown adapter: ...")` raised for unregistered names. -/
def get_adapter (name : String) : Option (Json → List PyRecord) :=
  if name = "generic_responses_v1" then some parse else none

/-! ## The read-only diff query (`api/routers/seeds.py`) -/

/-- Key deduplication performed by the dict comprehension
`{var: normalize_variation(var) for var in payload.variations}`:
duplicate raw strings collapse to their first occurrence, in order. -/
def dedupFirstAux (seen : List String) : List String → List String
  | [] => []
  | x :: xs =>
    if seen.contains x then dedupFirstAux seen xs
    else x :: dedupFirstAux (x :: seen) xs

def dedupFirst (l : List String) : List String :=
  dedupFirstAux [] l

/-- `seed_diff` from `api/routers/seeds.py`: normalise the seed, look
it up; if absent, everything is new; otherwise classify each (deduped)
candidate by whether its normalized form is among the seed's stored
normalized variations, returning raw casings in request order.  The
endpoint only issues SELECTs, so it takes the store and returns the
`(existing, new)` lists. -/
def seed_diff (s : Store) (seed : String) (variations : List String) :
    List String × List String :=
  let seed_norm := normalize_seed seed false
  match s.seeds.find? (fun r => r.normalized_seed == seed_norm) with
  | none => ([], variations)
  | some row =>
    let cand := dedupFirst variations
    let cand_norms := cand.map (fun v => normalize_variation v false)
    let existing_norms :=
      (s.variations.filter (fun v =>
        v.seed_id == row.id && cand_norms.contains v.normalized_variation)).map
        (fun v => v.normalized_variation)
    cand.partition (fun v => existing_norms.contains (normalize_variation v false))

/-! ## Spec-side definitions used to state the claims -/

/-- Modelled from the spec: the accent-stripping step as the claim
words it, with the CANONICAL (NFD) decomposition in place of the
compatibility (NFKD) decomposition the code performs. -/
def stripAccentsCanonical (l : List Char) : List Char :=
  (l.flatMap nfdChar).filter (fun c => !isCombining c)

/-- Modelled from the spec: the normalisation pipeline exactly as the
claim describes it — trim, lowercase, decompose to CANONICAL
decomposed form and drop combining marks, collapse whitespace,
optionally collapse repeats. -/
def normalize_text_canonical (s : String) (collapse_repeats : Bool) : String :=
  let t1 := pyStrip s.data
  let t2 := pyLower t1
  let t3 := stripAccentsCanonical t2
  let t4 := collapseWs t3
  ⟨if collapse_repeats then collapseRepeats t4 else t4⟩

/-- One `responses` entry of a shape `parse` does not recognise: not a
JSON object, or a `variations` field that is not an object (absence
defaults to the empty object), or an object none of whose values is a
list. -/
def entryUnrecognized : Json → Prop
  | .jobj resp =>
    (match (jget resp "variations").getD (.jobj .nil) with
     | .jobj vmap => ∀ kv ∈ vmap.toList, ∀ xs, kv.2 ≠ Json.jarr xs
     | _ => True)
  | _ => True

/-- A syntactically valid JSON document whose shape
`generic_responses_v1` does not recognise: top level not an object, no
`responses` object, or every `responses` entry unrecognised. -/
def shapeUnrecognized : Json → Prop
  | .jobj kvs =>
    (match jget kvs "responses" with
     | some (.jobj resps) => ∀ kv ∈ resps.toList, entryUnrecognized kv.2
     | _ => True)
  | _ => True

/-- The number of records one file contributes to a run's accepted
count: zero for non-regular files, files skipped by the resume check
against the given SourceFile rows, and unparseable files; otherwise the
number of adapter records that pass validation. -/
def fileAcceptCount (env : Env) (adapter : Json → List PyRecord) (batch_id : Nat)
    (resume : Bool) (sfs : List SourceFileRow) (f : IFile) : Nat :=
  if !f.is_file then 0
  else if resume && (sfs.find? (fun r =>
      r.batch_id == batch_id &&
      r.file_checksum == env.compute_checksum f.content)).isSome then 0
  else
    match env.load_json f.content with
    | none => 0
    | some data => ((adapter data).filter (fun r => (validate_record r).1)).length

/-- The number of records a run over `files` would accept (the spec's
"records that would have been accepted"), judged against a fixed set of
SourceFile rows. -/
def wouldAcceptCount (env : Env) (adapter : Json → List PyRecord) (batch_id : Nat)
    (resume : Bool) (sfs : List SourceFileRow) : List IFile → Nat
  | [] => 0
  | f :: rest =>
    fileAcceptCount env adapter batch_id resume sfs f +
      wouldAcceptCount env adapter batch_id resume sfs rest

/-- At most one row per normalized seed text. -/
def uniqSeedList (l : List SeedRow) : Prop :=
  ∀ t : String, l.countP (fun r => r.normalized_seed == t) ≤ 1

/-- At most one row per (owning seed, normalized variation text) pair. -/
def uniqVarList (l : List VariationRow) : Prop :=
  ∀ (sid : Nat) (t : String),
    l.countP (fun v => v.seed_id == sid && v.normalized_variation == t) ≤ 1

/-- The Seed dedup invariant of the spec's data model. -/
def UniqueSeeds (s : Store) : Prop :=
  uniqSeedList s.seeds

/-- The Variation dedup invariant of the spec's data model. -/
def UniqueVariations (s : Store) : Prop :=
  uniqVarList s.variations

/-- The durable stores reachable from the empty store by any sequence
of `ingest_batch` runs, with any environments, adapters, batch names,
file lists and flags. -/
inductive Reachable : Store → Prop
  | init : Reachable emptyStore
  | step (env : Env) (adapter : Json → List PyRecord) (bn : String)
      (files : List IFile) (dry resume : Bool) {s : Store} :
      Reachable s → Reachable (ingest_batch env adapter bn files dry resume s).2

/-- The store holds a SourceFile row for this batch and content
checksum — the key the resume check looks up. -/
def HasSF (l : List SourceFileRow) (B : Nat) (c : String) : Prop :=
  ∃ row ∈ l, row.batch_id = B ∧ row.file_checksum = c

/-- Autoincrement soundness: every SourceFile row references a batch id
below the batch counter. -/
def sfBound (s : Store) : Prop :=
  ∀ sf ∈ s.source_files, sf.batch_id < s.next_batch_id

/-- Autoincrement soundness: every Batch row's id is below the batch
counter. -/
def batchBound (s : Store) : Prop :=
  ∀ b ∈ s.batches, b.id < s.next_batch_id

/-- Proof-side view of Python `str.lower` on one character (it is
single-valued on every character this development mentions). -/
def lowerChar1 (c : Char) : Char :=
  if 65 ≤ c.toNat && c.toNat ≤ 90 then Char.ofNat (c.toNat + 32) else c

/-- Adjacent characters are never both whitespace. -/
def noWsPair (a b : Char) : Prop :=
  ¬(pyIsSpace a = true ∧ pyIsSpace b = true)

/-! ## Concrete objects used in witnesses and counterexamples -/

/-- A concrete environment: the identity digest for `md5_hex`, the
decimal rendering of the bytes for `compute_checksum` (a function of
content only, like the SHA-256 it stands for), a JSON parser that
always succeeds with `null`, and a trivial `dumps`. -/
def envA : Env :=
  ⟨fun s => s,
   fun bs => (bs.map (fun n => toString n)).foldl (fun a b => a ++ b) "",
   fun _ => some Json.null,
   fun _ => ""⟩

/-- A record reporting variation "Ahmad" of seed "Ahmed". -/
def recA : PyRecord :=
  ⟨Json.jstr "Ahmed", Json.jstr "Ahmad", Json.null, Json.null, Json.null⟩

/-- An adapter that yields `recA` once for any document. -/
def adA : Json → List PyRecord := fun _ => [recA]

/-- An adapter that yields `recA` twice for any document. -/
def adA2 : Json → List PyRecord := fun _ => [recA, recA]

def fileA : IFile := ⟨"a.json", [1, 2, 3], true⟩

/-- Same content as `fileA` under another name. -/
def fileA' : IFile := ⟨"renamed.json", [1, 2, 3], true⟩

def fileB : IFile := ⟨"b.json", [4, 5, 6], true⟩

/-- An environment whose parser yields a JSON document of a shape the
adapter does not recognise (a top-level array). -/
def envB : Env :=
  ⟨fun s => s, fun _ => "c", fun _ => some (Json.jarr JsonList.nil), fun _ => ""⟩

/-- The store of the spec's partition example: one Seed "Ahmed" with
stored variations "ahmad" and "amed". -/
def storeDiffExample : Store :=
  ⟨[⟨1, "Ahmed", "ahmed", "h"⟩],
   [⟨1, 1, "ahmad", "ahmad", "h"⟩, ⟨2, 1, "amed", "amed", "h"⟩],
   [], [], [], [], 2, 3, 1, 1, 1, 1⟩

/-! ### Theorems -/

theorem toNat_ofNat_small (n : Nat) (h : n < 0xD800) : (Char.ofNat n).toNat = n := by
  have hv : Nat.isValidChar n := Or.inl h
  rw [Char.ofNat, dif_pos hv]
  simp only [Char.ofNatAux, Char.toNat, UInt32.toNat]
  simp

theorem pyLowerChar_eq (c : Char) : pyLowerChar c = [lowerChar1 c] := by
  unfold pyLowerChar lowerChar1
  split <;> rfl

theorem pyLower_eq_map (l : List Char) : pyLower l = l.map lowerChar1 := by
  induction l with
  | nil => rfl
  | cons a rest ih =>
    simp [pyLower, List.flatMap_cons, pyLowerChar_eq] at ih ⊢
    simpa [pyLower] using ih

/-- C3 (amended), main theorem: `normalize_text` applies exactly the
five steps — trim, lowercase, NFKD-decompose-and-drop-combining-marks,
collapse whitespace runs to one ASCII space, and (only when
`collapse_repeats`, which is off by default at every call site)
collapse runs of three-or-more identical characters — in this order;
with the spec's own worked examples evaluated. -/
theorem normalize_steps_in_order :
    (∀ (s : String) (flag : Bool),
      normalize_text s flag =
        ⟨(if flag then collapseRepeats (collapseWs (stripAccents (pyLower (pyStrip s.data))))
          else collapseWs (stripAccents (pyLower (pyStrip s.data))))⟩) ∧
    normalize_text "  Michaël  " false = "michael" ∧
    normalize_text "MICHAEL" false = "michael" ∧
    normalize_text "John   Doe" false = "john doe" ∧
    normalize_text "aaasem" true = "asem" ∧
    normalize_text "aaasem" false = "aaasem" := by
  refine ⟨fun s flag => ?_, by decide, by decide, by decide, by decide, by decide⟩
  unfold normalize_text normCore
  split <;> rfl

/-- C3, counterexample: the claim says step 3 decomposes to the
CANONICAL decomposed Unicode form, but the code uses the COMPATIBILITY
decomposition (NFKD): on the compatibility character 'ﬁ' (U+FB01,
which NFKD expands to "fi" while NFD leaves it alone) the two
pipelines disagree. -/
theorem normalize_canonical_decomposition_refuted :
    normalize_text "ﬁ" false = "fi" ∧
    normalize_text_canonical "ﬁ" false = "ﬁ" ∧
    normalize_text "ﬁ" false ≠ normalize_text_canonical "ﬁ" false := by
  decide

/-! ### Idempotence of `normalize_text` on ASCII input (claim C6) -/

theorem pyIsSpace_iff (c : Char) : pyIsSpace c = true ↔
    (9 ≤ c.toNat ∧ c.toNat ≤ 13) ∨ (28 ≤ c.toNat ∧ c.toNat ≤ 32) ∨ c.toNat = 0x85 ∨
    c.toNat = 0xA0 ∨ c.toNat = 0x1680 ∨ (0x2000 ≤ c.toNat ∧ c.toNat ≤ 0x200A) ∨
    c.toNat = 0x2028 ∨ c.toNat = 0x2029 ∨ c.toNat = 0x202F ∨ c.toNat = 0x205F ∨
    c.toNat = 0x3000 := by
  simp [pyIsSpace]
  tauto

theorem pyIsSpace_lowerChar1 (c : Char) : pyIsSpace (lowerChar1 c) = pyIsSpace c := by
  unfold lowerChar1
  split
  · rename_i h
    simp only [Bool.and_eq_true, decide_eq_true_eq] at h
    have ht := toNat_ofNat_small (c.toNat + 32) (by omega)
    have h1 : pyIsSpace (Char.ofNat (c.toNat + 32)) = false := by
      rw [← Bool.not_eq_true, pyIsSpace_iff, ht]; omega
    have h2 : pyIsSpace c = false := by
      rw [← Bool.not_eq_true, pyIsSpace_iff]; omega
    rw [h1, h2]
  · rfl

theorem lowerChar1_fix_of_not_upper {c : Char}
    (h : ¬(65 ≤ c.toNat ∧ c.toNat ≤ 90)) : lowerChar1 c = c := by
  unfold lowerChar1
  rw [if_neg]
  simpa using h

theorem lowerChar1_idem (c : Char) : lowerChar1 (lowerChar1 c) = lowerChar1 c := by
  by_cases h : 65 ≤ c.toNat ∧ c.toNat ≤ 90
  · have e1 : lowerChar1 c = Char.ofNat (c.toNat + 32) := by
      unfold lowerChar1
      rw [if_pos]
      simpa using h
    have ht := toNat_ofNat_small (c.toNat + 32) (by omega)
    rw [e1, lowerChar1_fix_of_not_upper]
    rw [ht]; omega
  · rw [lowerChar1_fix_of_not_upper h, lowerChar1_fix_of_not_upper h]

theorem lowerChar1_ascii {c : Char} (h : c.toNat < 128) : (lowerChar1 c).toNat < 128 := by
  unfold lowerChar1
  split
  · rename_i hb
    simp only [Bool.and_eq_true, decide_eq_true_eq] at hb
    rw [toNat_ofNat_small _ (by omega)]
    omega
  · exact h

theorem nfkdChar_ascii {c : Char} (h : c.toNat < 128) : nfkdChar c = [c] := by
  have h1 : c ≠ 'ë' := by intro he; subst he; exact absurd h (by decide)
  have h2 : c ≠ 'ᴷ' := by intro he; subst he; exact absurd h (by decide)
  have h3 : c ≠ 'ﬁ' := by intro he; subst he; exact absurd h (by decide)
  simp [nfkdChar, h1, h2, h3]

theorem isCombining_ascii {c : Char} (h : c.toNat < 128) : isCombining c = false := by
  simp only [isCombining, decide_eq_false_iff_not]
  omega

theorem stripAccents_ascii : ∀ {l : List Char}, (∀ c ∈ l, c.toNat < 128) →
    stripAccents l = l := by
  intro l h
  unfold stripAccents
  have hf : ∀ (m : List Char), (∀ c ∈ m, c.toNat < 128) → m.flatMap nfkdChar = m := by
    intro m
    induction m with
    | nil => intro _; rfl
    | cons a rest ih =>
      intro hm
      rw [List.flatMap_cons, nfkdChar_ascii (hm a (by simp)),
        ih (fun c hc => hm c (by simp [hc]))]
      rfl
  rw [hf l h, List.filter_eq_self.mpr]
  intro a ha
  simp [isCombining_ascii (h a ha)]

theorem collapseWsAux_true_cons_of_ws {a : Char} (hws : pyIsSpace a = true)
    (l : List Char) :
    collapseWsAux true (a :: l) = collapseWsAux true l := by
  simp [collapseWsAux, hws]

theorem collapseWsAux_false_cons_of_ws {a : Char} (hws : pyIsSpace a = true)
    (l : List Char) :
    collapseWsAux false (a :: l) = ' ' :: collapseWsAux true l := by
  simp [collapseWsAux, hws]

theorem collapseWsAux_cons_of_not_ws {a : Char} (hws : pyIsSpace a = false)
    (b : Bool) (l : List Char) :
    collapseWsAux b (a :: l) = a :: collapseWsAux false l := by
  cases b <;> simp [collapseWsAux, hws]

theorem mem_collapseWsAux {c : Char} :
    ∀ (l : List Char) (b : Bool), c ∈ collapseWsAux b l →
      c = ' ' ∨ (c ∈ l ∧ pyIsSpace c = false) := by
  intro l
  induction l with
  | nil => intro b hc; simp [collapseWsAux] at hc
  | cons a rest ih =>
    intro b hc
    by_cases hws : pyIsSpace a
    · cases b with
      | true =>
        rw [collapseWsAux_true_cons_of_ws hws] at hc
        rcases ih true hc with h | ⟨h1, h2⟩
        · exact Or.inl h
        · exact Or.inr ⟨List.mem_cons_of_mem a h1, h2⟩
      | false =>
        rw [collapseWsAux_false_cons_of_ws hws] at hc
        rcases List.mem_cons.mp hc with h | hc
        · exact Or.inl h
        · rcases ih true hc with h | ⟨h1, h2⟩
          · exact Or.inl h
          · exact Or.inr ⟨List.mem_cons_of_mem a h1, h2⟩
    · have hws' : pyIsSpace a = false := by simpa using hws
      rw [collapseWsAux_cons_of_not_ws hws'] at hc
      rcases List.mem_cons.mp hc with rfl | hc
      · exact Or.inr ⟨List.mem_cons_self _ _, hws'⟩
      · rcases ih false hc with h | ⟨h1, h2⟩
        · exact Or.inl h
        · exact Or.inr ⟨List.mem_cons_of_mem a h1, h2⟩

theorem head_collapseWsAux_true :
    ∀ (l : List Char) (c : Char), (collapseWsAux true l).head? = some c →
      pyIsSpace c = false := by
  intro l
  induction l with
  | nil => intro c hc; simp [collapseWsAux] at hc
  | cons a rest ih =>
    intro c hc
    by_cases hws : pyIsSpace a
    · rw [collapseWsAux_true_cons_of_ws hws] at hc
      exact ih c hc
    · have hws' : pyIsSpace a = false := by simpa using hws
      rw [collapseWsAux_cons_of_not_ws hws'] at hc
      simp only [List.head?_cons, Option.some.injEq] at hc
      subst hc
      exact hws'

theorem collapseWsAux_false_ne_nil (a : Char) (l : List Char) :
    collapseWsAux false (a :: l) ≠ [] := by
  by_cases hws : pyIsSpace a <;> simp [collapseWsAux, hws]

theorem chain_collapseWsAux :
    ∀ (l : List Char) (b : Bool), List.Chain' noWsPair (collapseWsAux b l) := by
  intro l
  induction l with
  | nil => intro b; simp [collapseWsAux]
  | cons a rest ih =>
    intro b
    by_cases hws : pyIsSpace a
    · cases b with
      | true => rw [collapseWsAux_true_cons_of_ws hws]; exact ih true
      | false =>
        rw [collapseWsAux_false_cons_of_ws hws]
        rw [List.chain'_cons']
        refine ⟨fun y hy => ?_, ih true⟩
        have hyws := head_collapseWsAux_true rest y (by simpa using hy)
        intro hpair
        rw [hyws] at hpair
        exact absurd hpair.2 (by simp)
    · have hws' : pyIsSpace a = false := by simpa using hws
      rw [collapseWsAux_cons_of_not_ws hws']
      rw [List.chain'_cons']
      refine ⟨fun y hy => ?_, ih false⟩
      intro hpair
      rw [hws'] at hpair
      exact absurd hpair.1 (by simp)

theorem collapseWsAux_fixed :
    ∀ (l : List Char), (∀ c ∈ l, pyIsSpace c = true → c = ' ') →
      List.Chain' noWsPair l → collapseWsAux false l = l := by
  intro l
  induction l with
  | nil => intro _ _; rfl
  | cons a rest ih =>
    intro honly hchain
    by_cases hws : pyIsSpace a
    · have ha : a = ' ' := honly a (by simp) hws
      rw [collapseWsAux_false_cons_of_ws hws]
      have htail : collapseWsAux true rest = collapseWsAux false rest := by
        cases rest with
        | nil => rfl
        | cons r rs =>
          have hpair : noWsPair a r := (List.chain'_cons.mp hchain).1
          have hr : pyIsSpace r = false := by
            by_contra hcon
            exact hpair ⟨hws, by simpa using hcon⟩
          rw [collapseWsAux_cons_of_not_ws hr, collapseWsAux_cons_of_not_ws hr]
      rw [htail, ih (fun c hc h => honly c (by simp [hc]) h) hchain.tail]
      simp [ha]
    · have hws' : pyIsSpace a = false := by simpa using hws
      rw [collapseWsAux_cons_of_not_ws hws']
      rw [ih (fun c hc h => honly c (by simp [hc]) h) hchain.tail]

theorem getLast_collapseWsAux :
    ∀ (l : List Char) (b : Bool) (c : Char), l.getLast? = some c →
      pyIsSpace c = false →
      ∃ d, (collapseWsAux b l).getLast? = some d ∧ pyIsSpace d = false := by
  intro l
  induction l with
  | nil => intro b c hc _; simp at hc
  | cons a rest ih =>
    intro b c hc hcws
    cases rest with
    | nil =>
      have ha : a = c := by simpa using hc
      have haws : pyIsSpace a = false := by rw [ha]; exact hcws
      refine ⟨a, ?_, haws⟩
      rw [collapseWsAux_cons_of_not_ws haws]
      rfl
    | cons r rs =>
      have hlast : (r :: rs).getLast? = some c := by
        rwa [List.getLast?_cons_cons] at hc
      by_cases hws : pyIsSpace a
      · rcases ih true c hlast hcws with ⟨d, hd, hdws⟩
        refine ⟨d, ?_, hdws⟩
        cases b with
        | true => rw [collapseWsAux_true_cons_of_ws hws]; exact hd
        | false =>
          rw [collapseWsAux_false_cons_of_ws hws]
          obtain ⟨x, xs, hx⟩ : ∃ x xs, collapseWsAux true (r :: rs) = x :: xs := by
            cases hcw : collapseWsAux true (r :: rs) with
            | nil => rw [hcw] at hd; simp at hd
            | cons x xs => exact ⟨x, xs, rfl⟩
          rw [hx] at hd ⊢
          rw [List.getLast?_cons_cons]
          exact hd
      · have hws' : pyIsSpace a = false := by simpa using hws
        rcases ih false c hlast hcws with ⟨d, hd, hdws⟩
        refine ⟨d, ?_, hdws⟩
        rw [collapseWsAux_cons_of_not_ws hws']
        obtain ⟨x, xs, hx⟩ : ∃ x xs, collapseWsAux false (r :: rs) = x :: xs := by
          cases hcw : collapseWsAux false (r :: rs) with
          | nil => exact absurd hcw (collapseWsAux_false_ne_nil r rs)
          | cons x xs => exact ⟨x, xs, rfl⟩
        rw [hx] at hd ⊢
        rw [List.getLast?_cons_cons]
        exact hd

theorem head_collapseWsAux_false {l : List Char}
    (h : ∀ c, l.head? = some c → pyIsSpace c = false) :
    ∀ c, (collapseWsAux false l).head? = some c → pyIsSpace c = false := by
  cases l with
  | nil => intro c hc; simp [collapseWsAux] at hc
  | cons a rest =>
    intro c hc
    have ha : pyIsSpace a = false := h a rfl
    rw [collapseWsAux_cons_of_not_ws ha] at hc
    simp only [List.head?_cons, Option.some.injEq] at hc
    subst hc
    exact ha

theorem head_dropWhile_not {α : Type} (p : α → Bool) :
    ∀ (l : List α) (c : α), (l.dropWhile p).head? = some c → p c = false := by
  intro l
  induction l with
  | nil => intro c hc; simp [List.dropWhile] at hc
  | cons a rest ih =>
    intro c hc
    by_cases hp : p a
    · rw [List.dropWhile_cons, if_pos hp] at hc
      exact ih c hc
    · rw [List.dropWhile_cons, if_neg hp] at hc
      simp only [List.head?_cons, Option.some.injEq] at hc
      subst hc
      simpa using hp

theorem dropWhile_eq_self_of_head {α : Type} {p : α → Bool} :
    ∀ {l : List α}, (∀ c, l.head? = some c → p c = false) → l.dropWhile p = l := by
  intro l h
  cases l with
  | nil => rfl
  | cons a rest =>
    rw [List.dropWhile_cons, if_neg]
    simp [h a rfl]

theorem getLast_of_suffix {α : Type} {v u : List α} (hs : v <:+ u) {c : α}
    (hc : v.getLast? = some c) : u.getLast? = some c := by
  rcases hs with ⟨pre, rfl⟩
  rw [List.getLast?_append, hc]
  rfl

theorem strip_trailing_eq_self {l : List Char}
    (h : ∀ c, l.getLast? = some c → pyIsSpace c = false) :
    (l.reverse.dropWhile pyIsSpace).reverse = l := by
  rw [dropWhile_eq_self_of_head, List.reverse_reverse]
  intro c hc
  rw [List.head?_reverse] at hc
  exact h c hc

theorem pyStrip_eq_self {l : List Char}
    (hhead : ∀ c, l.head? = some c → pyIsSpace c = false)
    (hlast : ∀ c, l.getLast? = some c → pyIsSpace c = false) :
    pyStrip l = l := by
  unfold pyStrip
  rw [dropWhile_eq_self_of_head hhead, strip_trailing_eq_self hlast]

theorem pyStrip_head (l : List Char) :
    ∀ c, (pyStrip l).head? = some c → pyIsSpace c = false := by
  intro c hc
  unfold pyStrip at hc
  rw [List.head?_reverse] at hc
  have hu := getLast_of_suffix
    (List.dropWhile_suffix (l := (l.dropWhile pyIsSpace).reverse) pyIsSpace) hc
  rw [List.getLast?_reverse] at hu
  exact head_dropWhile_not pyIsSpace l c hu

theorem pyStrip_getLast (l : List Char) :
    ∀ c, (pyStrip l).getLast? = some c → pyIsSpace c = false := by
  intro c hc
  unfold pyStrip at hc
  rw [List.getLast?_reverse] at hc
  exact head_dropWhile_not pyIsSpace _ c hc

theorem mem_pyStrip {c : Char} {l : List Char} (h : c ∈ pyStrip l) : c ∈ l := by
  unfold pyStrip at h
  rw [List.mem_reverse] at h
  have h1 := (List.dropWhile_sublist pyIsSpace).mem h
  rw [List.mem_reverse] at h1
  exact (List.dropWhile_sublist pyIsSpace).mem h1

theorem normCore_ascii_idem (l : List Char) (h : ∀ c ∈ l, c.toNat < 128) :
    normCore (normCore l false) false = normCore l false := by
  have ht1 : ∀ c ∈ pyStrip l, c.toNat < 128 := fun c hc => h c (mem_pyStrip hc)
  have ht2 : ∀ c ∈ pyLower (pyStrip l), c.toNat < 128 := by
    rw [pyLower_eq_map]
    intro c hc
    rcases List.mem_map.mp hc with ⟨d, hd, rfl⟩
    exact lowerChar1_ascii (ht1 d hd)
  have ht3 : stripAccents (pyLower (pyStrip l)) = pyLower (pyStrip l) :=
    stripAccents_ascii ht2
  have hy : normCore l false = collapseWs (pyLower (pyStrip l)) := by
    simp [normCore, ht3]
  rw [hy]
  have hyAscii : ∀ c ∈ collapseWs (pyLower (pyStrip l)), c.toNat < 128 := by
    intro c hc
    rcases mem_collapseWsAux _ false hc with rfl | ⟨hmem, _⟩
    · decide
    · exact ht2 c hmem
  have hyLowerFixed : ∀ c ∈ collapseWs (pyLower (pyStrip l)), lowerChar1 c = c := by
    intro c hc
    rcases mem_collapseWsAux _ false hc with rfl | ⟨hmem, _⟩
    · decide
    · rw [pyLower_eq_map] at hmem
      rcases List.mem_map.mp hmem with ⟨d, _, rfl⟩
      exact lowerChar1_idem d
  have hyLower : pyLower (collapseWs (pyLower (pyStrip l))) =
      collapseWs (pyLower (pyStrip l)) := by
    rw [pyLower_eq_map, List.map_congr_left hyLowerFixed]
    simp
  have hyWsOnly : ∀ c ∈ collapseWs (pyLower (pyStrip l)),
      pyIsSpace c = true → c = ' ' := by
    intro c hc hcs
    rcases mem_collapseWsAux _ false hc with rfl | ⟨_, hws⟩
    · rfl
    · rw [hws] at hcs
      exact absurd hcs (by simp)
  have hyCollapse : collapseWs (collapseWs (pyLower (pyStrip l))) =
      collapseWs (pyLower (pyStrip l)) :=
    collapseWsAux_fixed _ hyWsOnly (chain_collapseWsAux _ false)
  have hheadT2 : ∀ c, (pyLower (pyStrip l)).head? = some c → pyIsSpace c = false := by
    intro c hc
    rw [pyLower_eq_map, List.head?_map] at hc
    cases hh : (pyStrip l).head? with
    | none => rw [hh] at hc; simp at hc
    | some d =>
      rw [hh] at hc
      simp only [Option.map_some', Option.some.injEq] at hc
      subst hc
      rw [pyIsSpace_lowerChar1]
      exact pyStrip_head l d hh
  have hyHead : ∀ c, (collapseWs (pyLower (pyStrip l))).head? = some c →
      pyIsSpace c = false :=
    head_collapseWsAux_false hheadT2
  have hyLast : ∀ c, (collapseWs (pyLower (pyStrip l))).getLast? = some c →
      pyIsSpace c = false := by
    intro c hc
    cases ht2l : (pyLower (pyStrip l)).getLast? with
    | none =>
      have h0 : pyLower (pyStrip l) = [] := List.getLast?_eq_none_iff.mp ht2l
      rw [h0] at hc
      simp [collapseWs, collapseWsAux] at hc
    | some e =>
      have hews : pyIsSpace e = false := by
        rw [pyLower_eq_map, List.getLast?_map] at ht2l
        cases hsl : (pyStrip l).getLast? with
        | none => rw [hsl] at ht2l; simp at ht2l
        | some f =>
          rw [hsl] at ht2l
          simp only [Option.map_some', Option.some.injEq] at ht2l
          subst ht2l
          rw [pyIsSpace_lowerChar1]
          exact pyStrip_getLast l f hsl
      rcases getLast_collapseWsAux _ false e ht2l hews with ⟨d, hd, hdws⟩
      unfold collapseWs at hc
      rw [hd] at hc
      cases hc
      exact hdws
  have hyStrip : pyStrip (collapseWs (pyLower (pyStrip l))) =
      collapseWs (pyLower (pyStrip l)) := pyStrip_eq_self hyHead hyLast
  calc normCore (collapseWs (pyLower (pyStrip l))) false
      = collapseWs (stripAccents (pyLower (pyStrip
          (collapseWs (pyLower (pyStrip l)))))) := by simp [normCore]
    _ = collapseWs (pyLower (pyStrip l)) := by
        rw [hyStrip, hyLower, stripAccents_ascii hyAscii, hyCollapse]

/-- C6 (amended): `normalize` with default flags is idempotent on every
string of ASCII characters. -/
theorem normalize_idempotent_on_ascii (s : String)
    (h : ∀ c ∈ s.data, c.toNat < 128) :
    normalize_text (normalize_text s false) false = normalize_text s false :=
  congrArg String.mk (normCore_ascii_idem s.data h)

theorem normalize_idempotent_on_ascii_witness :
    (∀ c ∈ ("  John   DOE  " : String).data, c.toNat < 128) ∧
    normalize_text (normalize_text "  John   DOE  " false) false =
      normalize_text "  John   DOE  " false :=
  ⟨by decide, normalize_idempotent_on_ascii "  John   DOE  " (by decide)⟩

/-- C6, counterexample: idempotence fails on the code as written.  The
modifier letter 'ᴷ' (U+1D37) has no lowercase mapping, so lowercasing
fixes it, but its NFKD decomposition is the CAPITAL letter 'K' — and a
second `normalize` pass lowercases that to 'k'. -/
theorem normalize_not_idempotent :
    normalize_text (normalize_text "ᴷ" false) false ≠ normalize_text "ᴷ" false ∧
    normalize_text "ᴷ" false = "K" ∧ normalize_text "K" false = "k" := by
  decide

/-! ### Record validation (claim C8) -/

theorem truthy_str_iff (v : Json) :
    (truthy v && isStr v) = true ↔ ∃ s, s ≠ "" ∧ v = Json.jstr s := by
  cases v <;> simp [truthy, isStr]

/-- C8: `validate_record` rejects a record (first component `false`,
with a reason string) iff its `seed` or its `variation` is not a
non-empty string; the miner id, score and raw fields never influence
the outcome; and in the engine's record loop a rejected record bumps
`invalid_records` and processing continues with the remaining records
of the same file, leaving the store untouched. -/
theorem validate_rejects_iff :
    (∀ rec : PyRecord,
      ((validate_record rec).1 = false ↔
        ¬(∃ s, s ≠ "" ∧ rec.seed = Json.jstr s) ∨
        ¬(∃ s, s ≠ "" ∧ rec.variation = Json.jstr s))) ∧
    (∀ (rec : PyRecord) (m sc r : Json),
      validate_record { rec with miner_ext_id := m, score := sc, raw := r } =
        validate_record rec) ∧
    (∀ (env : Env) (batch_id : Nat) (sfid : Option Nat) (dry : Bool)
        (st : FileState) (rec : PyRecord) (rest : List PyRecord),
      (validate_record rec).1 = false →
      (rec :: rest).foldl (processRecord env batch_id sfid dry) st =
        rest.foldl (processRecord env batch_id sfid dry)
          { st with metrics :=
              { st.metrics with invalid_records := st.metrics.invalid_records + 1 } }) := by
  refine ⟨fun rec => ?_, fun rec m sc r => rfl, fun env B sfid dry st rec rest h => ?_⟩
  · rw [← truthy_str_iff, ← truthy_str_iff]
    unfold validate_record
    by_cases hs : (truthy rec.seed && isStr rec.seed) = true
    · have hs' : (!truthy rec.seed || !isStr rec.seed) = false := by
        simp only [Bool.and_eq_true] at hs
        simp [hs.1, hs.2]
      rw [if_neg (by simp [hs'])]
      by_cases hv : (truthy rec.variation && isStr rec.variation) = true
      · have hv' : (!truthy rec.variation || !isStr rec.variation) = false := by
          simp only [Bool.and_eq_true] at hv
          simp [hv.1, hv.2]
        rw [if_neg (by simp [hv'])]
        simp [hs, hv]
      · have hv' : (!truthy rec.variation || !isStr rec.variation) = true := by
          rcases Bool.not_and _ _ ▸ congrArg (fun b => !b) (Bool.eq_false_iff.mpr hv) with h'
          simpa using h'
        rw [if_pos hv']
        simp [hv]
    · have hs' : (!truthy rec.seed || !isStr rec.seed) = true := by
        rcases Bool.not_and _ _ ▸ congrArg (fun b => !b) (Bool.eq_false_iff.mpr hs) with h'
        simpa using h'
      rw [if_pos hs']
      simp [hs]
  · rw [List.foldl_cons]
    congr 1
    simp [processRecord, h]

theorem validate_rejects_iff_witness :
    (validate_record ⟨Json.null, Json.jstr "x", Json.null, Json.null, Json.null⟩).1
        = false ∧
    [(⟨Json.null, Json.jstr "x", Json.null, Json.null, Json.null⟩ : PyRecord)].foldl
        (processRecord envA 1 none false) ⟨emptyStore, Metrics.init, 0⟩ =
      ⟨emptyStore, { Metrics.init with invalid_records := 1 }, 0⟩ := by
  refine ⟨by decide, ?_⟩
  rw [validate_rejects_iff.2.2 envA 1 none false ⟨emptyStore, Metrics.init, 0⟩
    ⟨Json.null, Json.jstr "x", Json.null, Json.null, Json.null⟩ [] (by decide)]
  rfl

/-! ### The diff query (claim C7) -/

/-- C7: `seed_diff` classifies candidates by normalized form against
the stored variations of the (normalized-)matching seed, returning the
caller's raw strings; on the spec's example it reports
`existing = ["ahmad"]`, `new = ["zed"]`; when the seed is unknown every
candidate is new; and the query performs no writes (it is a function of
the store returning only the two lists). -/
theorem seed_diff_partition :
    (seed_diff storeDiffExample "ahmed" ["ahmad", "zed"] = (["ahmad"], ["zed"])) ∧
    (∀ (st : Store) (seed : String) (vars : List String),
      (st.seeds.find? (fun r => r.normalized_seed == normalize_seed seed false) =
          none → seed_diff st seed vars = ([], vars)) ∧
      (∀ row,
        st.seeds.find? (fun r => r.normalized_seed == normalize_seed seed false) =
          some row →
        ∀ v : String,
          (v ∈ (seed_diff st seed vars).1 ↔
            v ∈ dedupFirst vars ∧
            ∃ vr ∈ st.variations, vr.seed_id = row.id ∧
              vr.normalized_variation = normalize_variation v false) ∧
          (v ∈ (seed_diff st seed vars).2 ↔
            v ∈ dedupFirst vars ∧
            ¬∃ vr ∈ st.variations, vr.seed_id = row.id ∧
              vr.normalized_variation = normalize_variation v false))) := by
  refine ⟨by decide, fun st seed vars => ⟨fun hnone => ?_, fun row hrow v => ?_⟩⟩
  · simp [seed_diff, hnone]
  · have hresult : seed_diff st seed vars =
        (dedupFirst vars).partition (fun v =>
          ((st.variations.filter (fun vr =>
            vr.seed_id == row.id &&
              ((dedupFirst vars).map (fun w => normalize_variation w false)).contains
                vr.normalized_variation)).map
            (fun vr => vr.normalized_variation)).contains
            (normalize_variation v false)) := by
      simp only [seed_diff, hrow]
    have hp : ∀ w : String, w ∈ dedupFirst vars →
        ((((st.variations.filter (fun vr =>
            vr.seed_id == row.id &&
              ((dedupFirst vars).map (fun x => normalize_variation x false)).contains
                vr.normalized_variation)).map
            (fun vr => vr.normalized_variation)).contains
            (normalize_variation w false)) = true ↔
          ∃ vr ∈ st.variations, vr.seed_id = row.id ∧
            vr.normalized_variation = normalize_variation w false) := by
      intro w hw
      rw [List.elem_iff, List.mem_map]
      constructor
      · rintro ⟨vr, hvr, hvrn⟩
        rw [List.mem_filter] at hvr
        rcases hvr with ⟨hmem, hq⟩
        simp only [Bool.and_eq_true, beq_iff_eq] at hq
        exact ⟨vr, hmem, hq.1, hvrn⟩
      · rintro ⟨vr, hmem, hsid, hnorm⟩
        refine ⟨vr, ?_, hnorm⟩
        rw [List.mem_filter]
        refine ⟨hmem, ?_⟩
        simp only [Bool.and_eq_true, beq_iff_eq]
        refine ⟨hsid, ?_⟩
        rw [List.elem_iff, hnorm]
        exact List.mem_map.mpr ⟨w, hw, rfl⟩
    rw [hresult, List.partition_eq_filter_filter]
    constructor
    · simp only [List.mem_filter]
      constructor
      · rintro ⟨hmem, hq⟩
        exact ⟨hmem, (hp v hmem).mp hq⟩
      · rintro ⟨hmem, hq⟩
        exact ⟨hmem, (hp v hmem).mpr hq⟩
    · simp only [List.mem_filter, Function.comp]
      constructor
      · rintro ⟨hmem, hq⟩
        rw [Bool.not_eq_true'] at hq
        refine ⟨hmem, fun hex => ?_⟩
        rw [← Bool.not_eq_true] at hq
        exact hq ((hp v hmem).mpr hex)
      · rintro ⟨hmem, hq⟩
        refine ⟨hmem, ?_⟩
        rw [Bool.not_eq_true']
        rw [← Bool.not_eq_true]
        intro htrue
        exact hq ((hp v hmem).mp htrue)

theorem seed_diff_partition_witness :
    "ahmad" ∈ (seed_diff storeDiffExample "ahmed" ["ahmad", "zed"]).1 ↔
      "ahmad" ∈ dedupFirst ["ahmad", "zed"] ∧
      ∃ vr ∈ storeDiffExample.variations,
        vr.seed_id = (⟨1, "Ahmed", "ahmed", "h"⟩ : SeedRow).id ∧
        vr.normalized_variation = normalize_variation "ahmad" false :=
  ((seed_diff_partition.2 storeDiffExample "ahmed" ["ahmad", "zed"]).2
    ⟨1, "Ahmed", "ahmed", "h"⟩ (by decide) "ahmad").1

/-! ### Unrecognised-shape inputs (claim C10) -/

theorem batch_source_files (s : Store) (bn : String) :
    (_get_or_create_batch s bn).2.source_files = s.source_files := by
  unfold _get_or_create_batch
  split <;> rfl

theorem parse_unrecognized_nil (j : Json) (hj : shapeUnrecognized j) :
    parse j = [] := by
  cases j with
  | jobj kvs =>
    cases hresp : jget kvs "responses" with
    | none => simp only [parse, hresp]
    | some v =>
      cases v with
      | jobj resps =>
        simp only [shapeUnrecognized, hresp] at hj
        simp only [parse, hresp]
        rw [List.flatMap_eq_nil_iff]
        intro kv hkv
        obtain ⟨k, v2⟩ := kv
        have hent := hj ⟨k, v2⟩ hkv
        cases v2 with
        | jobj resp =>
          simp only [entryUnrecognized] at hent
          dsimp only at hent ⊢
          cases hvm : (jget resp "variations").getD (Json.jobj JsonKVs.nil) with
          | jobj vmap =>
            simp only [hvm] at hent
            dsimp only
            rw [List.flatMap_eq_nil_iff]
            intro sv hsv
            obtain ⟨sk, sv2⟩ := sv
            cases sv2 with
            | jarr xs => exact absurd rfl (hent ⟨sk, Json.jarr xs⟩ hsv xs)
            | null => rfl
            | jbool b => rfl
            | jnum n => rfl
            | jstr s => rfl
            | jobj o => rfl
          | null => rfl
          | jbool b => rfl
          | jnum n => rfl
          | jstr s => rfl
          | jarr xs => rfl
        | null => rfl
        | jbool b => rfl
        | jnum n => rfl
        | jstr s => rfl
        | jarr xs => rfl
      | null => simp only [parse, hresp]
      | jbool b => simp only [parse, hresp]
      | jnum n => simp only [parse, hresp]
      | jstr s => simp only [parse, hresp]
      | jarr xs => simp only [parse, hresp]
  | null => rfl
  | jbool b => rfl
  | jnum n => rfl
  | jstr s => rfl
  | jarr xs => rfl

/-- C10: a syntactically valid JSON document the adapter does not
recognise yields no records (and raises nothing), and ingesting such a
file counts it in `files_processed` with a SourceFile `record_count`
of 0, leaving `invalid_records` untouched. -/
theorem unrecognized_shape_is_empty_not_invalid :
    (∀ j : Json, shapeUnrecognized j → parse j = []) ∧
    (∀ (env : Env) (bn : String) (f : IFile) (s0 : Store) (j : Json),
      f.is_file = true →
      env.load_json f.content = some j →
      parse j = [] →
      s0.source_files.find? (fun r =>
          r.batch_id == (_get_or_create_batch s0 bn).1.id &&
          r.file_checksum == env.compute_checksum f.content) = none →
      ((ingest_batch env parse bn [f] false true s0).1.files_processed = 1 ∧
       (ingest_batch env parse bn [f] false true s0).1.invalid_records = 0 ∧
       (ingest_batch env parse bn [f] false true s0).1.observations_inserted = 0 ∧
       ∃ row ∈ (ingest_batch env parse bn [f] false true s0).2.source_files,
         row.file_checksum = env.compute_checksum f.content ∧
         row.record_count = some 0)) := by
  refine ⟨parse_unrecognized_nil, ?_⟩
  intro env bn f s0 j hfile hload hparse hfind
  have hbsf := batch_source_files s0 bn
  have hrun : ingest_batch env parse bn [f] false true s0 =
      (processFile env parse (_get_or_create_batch s0 bn).1.id false true
        ⟨(_get_or_create_batch s0 bn).2, s0, Metrics.init⟩ f |>.metrics,
       processFile env parse (_get_or_create_batch s0 bn).1.id false true
        ⟨(_get_or_create_batch s0 bn).2, s0, Metrics.init⟩ f |>.committed) := by
    unfold ingest_batch
    dsimp only
    rw [List.foldl_cons, List.foldl_nil]
  rw [hrun]
  unfold processFile
  rw [hfile]
  simp only [Bool.not_true, Bool.false_eq_true, if_false]
  rw [hbsf, hfind]
  simp only [Bool.true_and, Option.isSome_none, Bool.false_eq_true, if_false]
  rw [hload]
  dsimp only
  rw [hparse]
  simp only [List.foldl_nil]
  unfold sourceFilePhase setRecordCount
  simp only [Bool.not_false, if_true, Bool.false_eq_true, if_false]
  refine ⟨rfl, rfl, rfl, ?_⟩
  refine ⟨⟨(_get_or_create_batch s0 bn).2.next_source_file_id,
    (_get_or_create_batch s0 bn).1.id, f.path, env.compute_checksum f.content,
    some 0⟩, ?_, rfl, rfl⟩
  simp only [List.mem_map]
  refine ⟨⟨(_get_or_create_batch s0 bn).2.next_source_file_id,
    (_get_or_create_batch s0 bn).1.id, f.path, env.compute_checksum f.content,
    none⟩, ?_, ?_⟩
  · exact List.mem_append_right _ (List.mem_singleton.mpr rfl)
  · simp

/-! ### Frame lemmas for the engine's primitive operations -/

theorem gocseed_frame (s : Store) (raw n h : String) (m : Metrics) :
    (_get_or_create_seed s raw n h m).2.1.variations = s.variations ∧
    (_get_or_create_seed s raw n h m).2.1.miners = s.miners ∧
    (_get_or_create_seed s raw n h m).2.1.batches = s.batches ∧
    (_get_or_create_seed s raw n h m).2.1.source_files = s.source_files ∧
    (_get_or_create_seed s raw n h m).2.1.observations = s.observations ∧
    (_get_or_create_seed s raw n h m).2.1.next_batch_id = s.next_batch_id ∧
    (_get_or_create_seed s raw n h m).2.1.next_source_file_id = s.next_source_file_id ∧
    (_get_or_create_seed s raw n h m).2.1.next_observation_id = s.next_observation_id ∧
    (_get_or_create_seed s raw n h m).2.2.observations_inserted = m.observations_inserted ∧
    (_get_or_create_seed s raw n h m).2.2.files_processed = m.files_processed ∧
    (_get_or_create_seed s raw n h m).2.2.files_skipped = m.files_skipped ∧
    (_get_or_create_seed s raw n h m).2.2.invalid_records = m.invalid_records := by
  unfold _get_or_create_seed
  split <;> simp

theorem gocvar_frame (s : Store) (seed : SeedRow) (raw n h : String) (m : Metrics) :
    (_get_or_create_variation s seed raw n h m).2.1.seeds = s.seeds ∧
    (_get_or_create_variation s seed raw n h m).2.1.miners = s.miners ∧
    (_get_or_create_variation s seed raw n h m).2.1.batches = s.batches ∧
    (_get_or_create_variation s seed raw n h m).2.1.source_files = s.source_files ∧
    (_get_or_create_variation s seed raw n h m).2.1.observations = s.observations ∧
    (_get_or_create_variation s seed raw n h m).2.1.next_batch_id = s.next_batch_id ∧
    (_get_or_create_variation s seed raw n h m).2.1.next_source_file_id =
      s.next_source_file_id ∧
    (_get_or_create_variation s seed raw n h m).2.1.next_observation_id =
      s.next_observation_id ∧
    (_get_or_create_variation s seed raw n h m).2.2.observations_inserted =
      m.observations_inserted ∧
    (_get_or_create_variation s seed raw n h m).2.2.files_processed =
      m.files_processed ∧
    (_get_or_create_variation s seed raw n h m).2.2.files_skipped = m.files_skipped ∧
    (_get_or_create_variation s seed raw n h m).2.2.invalid_records =
      m.invalid_records := by
  unfold _get_or_create_variation
  split <;> simp

theorem gocminer_frame (s : Store) (e : Json) :
    (_get_or_create_miner s e).2.seeds = s.seeds ∧
    (_get_or_create_miner s e).2.variations = s.variations ∧
    (_get_or_create_miner s e).2.batches = s.batches ∧
    (_get_or_create_miner s e).2.source_files = s.source_files ∧
    (_get_or_create_miner s e).2.observations = s.observations ∧
    (_get_or_create_miner s e).2.next_batch_id = s.next_batch_id ∧
    (_get_or_create_miner s e).2.next_source_file_id = s.next_source_file_id ∧
    (_get_or_create_miner s e).2.next_observation_id = s.next_observation_id := by
  unfold _get_or_create_miner
  split
  · simp
  · split <;> simp

theorem processRecord_frame (env : Env) (B : Nat) (sfid : Option Nat) (dry : Bool)
    (st : FileState) (rec : PyRecord) :
    (processRecord env B sfid dry st rec).store.source_files =
      st.store.source_files ∧
    (processRecord env B sfid dry st rec).store.batches = st.store.batches ∧
    (processRecord env B sfid dry st rec).store.next_batch_id =
      st.store.next_batch_id ∧
    (processRecord env B sfid dry st rec).store.next_source_file_id =
      st.store.next_source_file_id ∧
    (processRecord env B sfid dry st rec).metrics.files_processed =
      st.metrics.files_processed ∧
    (processRecord env B sfid dry st rec).metrics.files_skipped =
      st.metrics.files_skipped ∧
    (processRecord env B sfid dry st rec).metrics.observations_inserted =
      st.metrics.observations_inserted +
        (if (validate_record rec).1 then 1 else 0) ∧
    (processRecord env B sfid dry st rec).metrics.invalid_records =
      st.metrics.invalid_records + (if (validate_record rec).1 then 0 else 1) ∧
    (processRecord env B sfid dry st rec).record_count =
      st.record_count + (if (validate_record rec).1 then 1 else 0) := by
  cases hvr : (validate_record rec).1 with
  | false => simp [processRecord, hvr]
  | true =>
    unfold processRecord _get_or_create_seed _get_or_create_variation
      _get_or_create_miner
    simp only [hvr, Bool.not_true, Bool.false_eq_true, if_false, if_true]
    repeat' split
    all_goals simp

theorem foldl_processRecord_frame (env : Env) (B : Nat) (sfid : Option Nat)
    (dry : Bool) :
    ∀ (recs : List PyRecord) (fs : FileState),
      (recs.foldl (processRecord env B sfid dry) fs).store.source_files =
        fs.store.source_files ∧
      (recs.foldl (processRecord env B sfid dry) fs).store.batches =
        fs.store.batches ∧
      (recs.foldl (processRecord env B sfid dry) fs).store.next_batch_id =
        fs.store.next_batch_id ∧
      (recs.foldl (processRecord env B sfid dry) fs).store.next_source_file_id =
        fs.store.next_source_file_id ∧
      (recs.foldl (processRecord env B sfid dry) fs).metrics.files_processed =
        fs.metrics.files_processed ∧
      (recs.foldl (processRecord env B sfid dry) fs).metrics.files_skipped =
        fs.metrics.files_skipped ∧
      (recs.foldl (processRecord env B sfid dry) fs).metrics.observations_inserted =
        fs.metrics.observations_inserted +
          (recs.filter (fun r => (validate_record r).1)).length ∧
      (recs.foldl (processRecord env B sfid dry) fs).metrics.invalid_records =
        fs.metrics.invalid_records +
          (recs.filter (fun r => !(validate_record r).1)).length ∧
      (recs.foldl (processRecord env B sfid dry) fs).record_count =
        fs.record_count + (recs.filter (fun r => (validate_record r).1)).length := by
  intro recs
  induction recs with
  | nil => intro fs; simp
  | cons r rest ih =>
    intro fs
    rw [List.foldl_cons]
    obtain ⟨a1, a2, a3, a4, a5, a6, a7, a8, a9⟩ :=
      ih (processRecord env B sfid dry fs r)
    obtain ⟨b1, b2, b3, b4, b5, b6, b7, b8, b9⟩ :=
      processRecord_frame env B sfid dry fs r
    refine ⟨by rw [a1, b1], by rw [a2, b2], by rw [a3, b3], by rw [a4, b4],
      by rw [a5, b5], by rw [a6, b6], ?_, ?_, ?_⟩ <;>
      cases hvr : (validate_record r).1 <;>
        simp_all [List.filter_cons, hvr] <;> omega

theorem processFile_dry (env : Env) (adapter : Json → List PyRecord) (B : Nat)
    (resume : Bool) (st : RunState) (f : IFile) :
    (processFile env adapter B true resume st f).committed = st.committed ∧
    (processFile env adapter B true resume st f).working.source_files =
      st.working.source_files ∧
    (processFile env adapter B true resume st f).metrics.observations_inserted =
      st.metrics.observations_inserted +
        fileAcceptCount env adapter B resume st.working.source_files f := by
  unfold processFile fileAcceptCount
  by_cases hf : f.is_file = true
  · simp only [hf, Bool.not_true, Bool.false_eq_true, if_false]
    by_cases hrs : (resume && (st.working.source_files.find? (fun r =>
        r.batch_id == B &&
        r.file_checksum == env.compute_checksum f.content)).isSome) = true
    · simp [hrs]
    · simp only [Bool.not_eq_true] at hrs
      simp only [hrs, Bool.false_eq_true, if_false]
      cases hlj : env.load_json f.content with
      | none => simp
      | some data =>
        simp only [sourceFilePhase, if_true, Bool.not_true, Bool.false_eq_true,
          if_false]
        obtain ⟨c1, _, _, _, _, _, c7, _, _⟩ :=
          foldl_processRecord_frame env B none true (adapter data)
            ⟨st.working, st.metrics, 0⟩
        exact ⟨trivial, c1, c7⟩
  · simp only [Bool.not_eq_true] at hf
    simp [hf]

theorem dry_foldl (env : Env) (adapter : Json → List PyRecord) (B : Nat)
    (resume : Bool) :
    ∀ (files : List IFile) (st : RunState),
      (files.foldl (processFile env adapter B true resume) st).committed =
        st.committed ∧
      (files.foldl (processFile env adapter B true resume) st).working.source_files =
        st.working.source_files ∧
      (files.foldl (processFile env adapter B true resume) st).metrics.observations_inserted =
        st.metrics.observations_inserted +
          wouldAcceptCount env adapter B resume st.working.source_files files := by
  intro files
  induction files with
  | nil => intro st; simp [wouldAcceptCount]
  | cons f rest ih =>
    intro st
    rw [List.foldl_cons]
    obtain ⟨a1, a2, a3⟩ := ih (processFile env adapter B true resume st f)
    obtain ⟨b1, b2, b3⟩ := processFile_dry env adapter B resume st f
    refine ⟨by rw [a1, b1], by rw [a2, b2], ?_⟩
    rw [a3, b2, b3, wouldAcceptCount]
    omega

/-- C4: a `dry_run=true` ingestion leaves the persisted store exactly
equal to what it was before the run — nothing is ever committed — while
the returned metrics still count `observations_inserted` for every
record that would have been accepted (regular, non-skipped, parseable
file; record passing validation). -/
theorem dry_run_pure (env : Env) (adapter : Json → List PyRecord) (bn : String)
    (files : List IFile) (resume : Bool) (s0 : Store) :
    (ingest_batch env adapter bn files true resume s0).2 = s0 ∧
    (ingest_batch env adapter bn files true resume s0).1.observations_inserted =
      wouldAcceptCount env adapter (_get_or_create_batch s0 bn).1.id resume
        s0.source_files files := by
  unfold ingest_batch
  dsimp only
  obtain ⟨h1, _, h3⟩ := dry_foldl env adapter (_get_or_create_batch s0 bn).1.id
    resume files ⟨(_get_or_create_batch s0 bn).2, s0, Metrics.init⟩
  refine ⟨h1, ?_⟩
  rw [h3]
  dsimp only
  rw [batch_source_files]
  simp [Metrics.init]

/-! ### SourceFile persistence timing (claim C5) -/

theorem setRecordCount_mem (s : Store) (i : Option Nat) (cnt : Nat)
    {row : SourceFileRow} (h : row ∈ s.source_files) :
    ∃ row' ∈ (setRecordCount s i cnt).source_files,
      row'.batch_id = row.batch_id ∧ row'.file_path = row.file_path ∧
      row'.file_checksum = row.file_checksum := by
  cases i with
  | none => exact ⟨row, h, rfl, rfl, rfl⟩
  | some n =>
    refine ⟨if row.id = n then { row with record_count := some cnt } else row,
      ?_, ?_, ?_, ?_⟩
    · unfold setRecordCount
      exact List.mem_map.mpr ⟨row, h, rfl⟩
    all_goals split <;> rfl

/-- C5, counterexample: the claim says the SourceFile row is persisted
to storage before the file's records are processed, so that an
interruption mid-file leaves the checksum trail committed.  It is not:
the row is only flushed inside the open transaction, and the commit
happens at end-of-file, so a crash after the SourceFile step — even
after records have been processed — leaves the durable store exactly
as before the file, with no SourceFile row.  Concretely, interrupting
after one record of `fileA` leaves the empty store, although the full
run inserts that record's observation and a SourceFile row. -/
theorem sourcefile_not_persisted_before_records :
    ingest_crash_mid_file envA adA "b" fileA true 1 emptyStore = emptyStore ∧
    (ingest_batch envA adA "b" [fileA] false true emptyStore).1.observations_inserted
        = 1 ∧
    (ingest_batch envA adA "b" [fileA] false true emptyStore).2.source_files ≠ [] := by
  decide

/-- C5 (amended): for a non-dry-run, non-skipped, parseable file, the
SourceFile row (batch, path, checksum) is added and flushed to the open
session before any of the file's records are processed, but it becomes
durable only with the end-of-file commit; an interruption mid-file
rolls the whole file — SourceFile row included — back, leaving the
durable store unchanged. -/
theorem sourcefile_flushed_then_committed_at_eof :
    (∀ (s : Store) (B : Nat) (path checksum : String),
      (sourceFilePhase s B path checksum false).1.source_files =
        s.source_files ++ [⟨s.next_source_file_id, B, path, checksum, none⟩]) ∧
    (∀ (env : Env) (adapter : Json → List PyRecord) (bn : String) (f : IFile)
        (resume : Bool) (k : Nat) (s0 : Store),
      ingest_crash_mid_file env adapter bn f resume k s0 = s0) ∧
    (∀ (env : Env) (adapter : Json → List PyRecord) (B : Nat) (resume : Bool)
        (st : RunState) (f : IFile) (j : Json),
      f.is_file = true →
      (resume && (st.working.source_files.find? (fun r =>
        r.batch_id == B &&
        r.file_checksum == env.compute_checksum f.content)).isSome) = false →
      env.load_json f.content = some j →
      ∃ row ∈ (processFile env adapter B false resume st f).committed.source_files,
        row.batch_id = B ∧ row.file_path = f.path ∧
        row.file_checksum = env.compute_checksum f.content) := by
  refine ⟨fun s B path checksum => rfl, ?_, ?_⟩
  · intro env adapter bn f resume k s0
    unfold ingest_crash_mid_file
    dsimp only
    repeat' split
    all_goals rfl
  · intro env adapter B resume st f j hf hskip hload
    unfold processFile
    rw [hf]
    simp only [Bool.not_true, Bool.false_eq_true, if_false]
    rw [hskip]
    simp only [Bool.false_eq_true, if_false]
    rw [hload]
    dsimp only
    simp only [sourceFilePhase, Bool.not_false, if_true, Bool.false_eq_true,
      if_false]
    have hrow : (⟨st.working.next_source_file_id, B, f.path,
        env.compute_checksum f.content, none⟩ : SourceFileRow) ∈
        (List.foldl (processRecord env B (some st.working.next_source_file_id)
            false)
          ⟨{ st.working with
               source_files := st.working.source_files ++
                 [⟨st.working.next_source_file_id, B, f.path,
                   env.compute_checksum f.content, none⟩],
               next_source_file_id := st.working.next_source_file_id + 1 },
            st.metrics, 0⟩ (adapter j)).store.source_files := by
      rw [(foldl_processRecord_frame env B
        (some st.working.next_source_file_id) false (adapter j) _).1]
      exact List.mem_append_right _ (List.mem_singleton.mpr rfl)
    exact setRecordCount_mem _ _ _ hrow

theorem sourcefile_flushed_witness :
    ∃ row ∈ (processFile envA adA 1 false true ⟨emptyStore, emptyStore, Metrics.init⟩
        fileA).committed.source_files,
      row.batch_id = 1 ∧ row.file_path = fileA.path ∧
      row.file_checksum = envA.compute_checksum fileA.content :=
  sourcefile_flushed_then_committed_at_eof.2.2 envA adA 1 true
    ⟨emptyStore, emptyStore, Metrics.init⟩ fileA Json.null rfl (by decide) rfl

/-! ### The dedup invariant (claim C1) -/

theorem sourceFilePhase_frame (s : Store) (B : Nat) (p c : String) (d : Bool) :
    (sourceFilePhase s B p c d).1.seeds = s.seeds ∧
    (sourceFilePhase s B p c d).1.variations = s.variations ∧
    (sourceFilePhase s B p c d).1.miners = s.miners ∧
    (sourceFilePhase s B p c d).1.batches = s.batches ∧
    (sourceFilePhase s B p c d).1.observations = s.observations ∧
    (sourceFilePhase s B p c d).1.next_batch_id = s.next_batch_id := by
  unfold sourceFilePhase
  split <;> simp

theorem setRecordCount_frame (s : Store) (i : Option Nat) (cnt : Nat) :
    (setRecordCount s i cnt).seeds = s.seeds ∧
    (setRecordCount s i cnt).variations = s.variations ∧
    (setRecordCount s i cnt).miners = s.miners ∧
    (setRecordCount s i cnt).batches = s.batches ∧
    (setRecordCount s i cnt).observations = s.observations ∧
    (setRecordCount s i cnt).next_batch_id = s.next_batch_id := by
  unfold setRecordCount
  cases i <;> simp

theorem gocbatch_frame (s : Store) (bn : String) :
    (_get_or_create_batch s bn).2.seeds = s.seeds ∧
    (_get_or_create_batch s bn).2.variations = s.variations ∧
    (_get_or_create_batch s bn).2.miners = s.miners ∧
    (_get_or_create_batch s bn).2.source_files = s.source_files ∧
    (_get_or_create_batch s bn).2.observations = s.observations := by
  unfold _get_or_create_batch
  split <;> simp

theorem gocseed_unique {s : Store} (raw n h : String) (m : Metrics)
    (hu : uniqSeedList s.seeds) :
    uniqSeedList (_get_or_create_seed s raw n h m).2.1.seeds := by
  unfold _get_or_create_seed
  cases hf : s.seeds.find? (fun r => r.normalized_seed == n) with
  | some r => exact hu
  | none =>
    intro t
    dsimp only
    rw [List.countP_append]
    by_cases ht : n = t
    · subst ht
      have h0 : s.seeds.countP (fun r => r.normalized_seed == n) = 0 :=
        List.countP_eq_zero.mpr (List.find?_eq_none.mp hf)
      rw [h0]
      simp [List.countP_cons]
    · have h1 : List.countP (fun r => r.normalized_seed == t)
          ([⟨s.next_seed_id, raw, n, h⟩] : List SeedRow) = 0 := by
        simp only [List.countP_cons, List.countP_nil]
        simp [ht]
      rw [h1]
      simpa using hu t

theorem gocvar_unique {s : Store} (seed : SeedRow) (raw n h : String) (m : Metrics)
    (hu : uniqVarList s.variations) :
    uniqVarList (_get_or_create_variation s seed raw n h m).2.1.variations := by
  unfold _get_or_create_variation
  cases hf : s.variations.find? (fun v =>
      v.seed_id == seed.id && v.normalized_variation == n) with
  | some v => exact hu
  | none =>
    intro sid t
    dsimp only
    rw [List.countP_append]
    by_cases hkey : seed.id = sid ∧ n = t
    · obtain ⟨hk1, hk2⟩ := hkey
      subst hk1
      subst hk2
      have h0 : s.variations.countP (fun v =>
          v.seed_id == seed.id && v.normalized_variation == n) = 0 :=
        List.countP_eq_zero.mpr (List.find?_eq_none.mp hf)
      rw [h0]
      simp [List.countP_cons]
    · have h1 : List.countP (fun v =>
          v.seed_id == sid && v.normalized_variation == t)
          ([⟨s.next_variation_id, seed.id, raw, n, h⟩] : List VariationRow) = 0 := by
        simp only [List.countP_cons, List.countP_nil]
        simp only [Nat.zero_add]
        rw [if_neg]
        intro hcon
        simp only [Bool.and_eq_true, beq_iff_eq] at hcon
        exact hkey ⟨hcon.1, hcon.2⟩
      rw [h1]
      simpa using hu sid t

theorem processRecord_inv (env : Env) (B : Nat) (sfid : Option Nat) (dry : Bool)
    (st : FileState) (rec : PyRecord)
    (hu : uniqSeedList st.store.seeds) (hv : uniqVarList st.store.variations) :
    uniqSeedList (processRecord env B sfid dry st rec).store.seeds ∧
    uniqVarList (processRecord env B sfid dry st rec).store.variations := by
  cases hvr : (validate_record rec).1 with
  | false =>
    simp only [processRecord, hvr, Bool.not_false, if_true]
    exact ⟨hu, hv⟩
  | true =>
    unfold processRecord
    simp only [hvr, Bool.not_true, Bool.false_eq_true, if_false, if_true]
    set GS := _get_or_create_seed st.store (asStr rec.seed)
      (normalize_seed (asStr rec.seed) false)
      (env.md5_hex (normalize_seed (asStr rec.seed) false)) st.metrics with hGS
    set GV := _get_or_create_variation GS.2.1 GS.1 (asStr rec.variation)
      (normalize_variation (asStr rec.variation) false)
      (env.md5_hex (normalize_variation (asStr rec.variation) false)) GS.2.2
      with hGV
    have h1 : uniqSeedList GS.2.1.seeds := by
      rw [hGS]
      exact gocseed_unique _ _ _ _ hu
    have h1v : uniqVarList GS.2.1.variations := by
      rw [hGS, (gocseed_frame st.store _ _ _ _).1]
      exact hv
    have h2 : uniqSeedList GV.2.1.seeds := by
      rw [hGV, (gocvar_frame GS.2.1 GS.1 _ _ _ _).1]
      exact h1
    have h2v : uniqVarList GV.2.1.variations := by
      rw [hGV]
      exact gocvar_unique _ _ _ _ _ h1v
    have h3 : uniqSeedList (if truthy rec.miner_ext_id then
          _get_or_create_miner GV.2.1 rec.miner_ext_id
        else (none, GV.2.1)).2.seeds ∧
        uniqVarList (if truthy rec.miner_ext_id then
          _get_or_create_miner GV.2.1 rec.miner_ext_id
        else (none, GV.2.1)).2.variations := by
      split
      · constructor
        · rw [(gocminer_frame _ _).1]
          exact h2
        · rw [(gocminer_frame _ _).2.1]
          exact h2v
      · exact ⟨h2, h2v⟩
    refine ⟨?_, ?_⟩ <;> split <;> first | exact h3.1 | exact h3.2

theorem foldl_processRecord_inv (env : Env) (B : Nat) (sfid : Option Nat)
    (dry : Bool) :
    ∀ (recs : List PyRecord) (fs : FileState),
      uniqSeedList fs.store.seeds → uniqVarList fs.store.variations →
      uniqSeedList ((recs.foldl (processRecord env B sfid dry) fs).store.seeds) ∧
      uniqVarList ((recs.foldl (processRecord env B sfid dry) fs).store.variations) := by
  intro recs
  induction recs with
  | nil => intro fs hu hv; exact ⟨hu, hv⟩
  | cons r rest ih =>
    intro fs hu hv
    rw [List.foldl_cons]
    obtain ⟨h1, h2⟩ := processRecord_inv env B sfid dry fs r hu hv
    exact ih (processRecord env B sfid dry fs r) h1 h2

theorem processFile_inv (env : Env) (adapter : Json → List PyRecord) (B : Nat)
    (dry resume : Bool) (st : RunState) (f : IFile)
    (hw : uniqSeedList st.working.seeds ∧ uniqVarList st.working.variations)
    (hc : uniqSeedList st.committed.seeds ∧ uniqVarList st.committed.variations) :
    (uniqSeedList (processFile env adapter B dry resume st f).working.seeds ∧
     uniqVarList (processFile env adapter B dry resume st f).working.variations) ∧
    (uniqSeedList (processFile env adapter B dry resume st f).committed.seeds ∧
     uniqVarList (processFile env adapter B dry resume st f).committed.variations) := by
  unfold processFile
  by_cases hf : f.is_file = true
  · simp only [hf, Bool.not_true, Bool.false_eq_true, if_false]
    by_cases hrs : (resume && (st.working.source_files.find? (fun r =>
        r.batch_id == B &&
        r.file_checksum == env.compute_checksum f.content)).isSome) = true
    · simp only [hrs, if_true]
      exact ⟨hw, hc⟩
    · simp only [Bool.not_eq_true] at hrs
      simp only [hrs, Bool.false_eq_true, if_false]
      cases hlj : env.load_json f.content with
      | none => exact ⟨hw, hc⟩
      | some data =>
        dsimp only
        have hws : uniqSeedList (sourceFilePhase st.working B f.path
              (env.compute_checksum f.content) dry).1.seeds ∧
            uniqVarList (sourceFilePhase st.working B f.path
              (env.compute_checksum f.content) dry).1.variations := by
          rw [(sourceFilePhase_frame _ _ _ _ _).1,
            (sourceFilePhase_frame _ _ _ _ _).2.1]
          exact hw
        obtain ⟨hf1, hf2⟩ := foldl_processRecord_inv env B
          (sourceFilePhase st.working B f.path
            (env.compute_checksum f.content) dry).2 dry (adapter data)
          ⟨(sourceFilePhase st.working B f.path
            (env.compute_checksum f.content) dry).1, st.metrics, 0⟩
          hws.1 hws.2
        have hw2 : uniqSeedList (if !dry then
              setRecordCount (List.foldl (processRecord env B
                (sourceFilePhase st.working B f.path
                  (env.compute_checksum f.content) dry).2 dry)
                ⟨(sourceFilePhase st.working B f.path
                  (env.compute_checksum f.content) dry).1, st.metrics, 0⟩
                (adapter data)).store
                (sourceFilePhase st.working B f.path
                  (env.compute_checksum f.content) dry).2
                (List.foldl (processRecord env B
                  (sourceFilePhase st.working B f.path
                    (env.compute_checksum f.content) dry).2 dry)
                ⟨(sourceFilePhase st.working B f.path
                  (env.compute_checksum f.content) dry).1, st.metrics, 0⟩
                (adapter data)).record_count
            else (List.foldl (processRecord env B
                (sourceFilePhase st.working B f.path
                  (env.compute_checksum f.content) dry).2 dry)
                ⟨(sourceFilePhase st.working B f.path
                  (env.compute_checksum f.content) dry).1, st.metrics, 0⟩
                (adapter data)).store).seeds ∧
          uniqVarList (if !dry then
              setRecordCount (List.foldl (processRecord env B
                (sourceFilePhase st.working B f.path
                  (env.compute_checksum f.content) dry).2 dry)
                ⟨(sourceFilePhase st.working B f.path
                  (env.compute_checksum f.content) dry).1, st.metrics, 0⟩
                (adapter data)).store
                (sourceFilePhase st.working B f.path
                  (env.compute_checksum f.content) dry).2
                (List.foldl (processRecord env B
                  (sourceFilePhase st.working B f.path
                    (env.compute_checksum f.content) dry).2 dry)
                ⟨(sourceFilePhase st.working B f.path
                  (env.compute_checksum f.content) dry).1, st.metrics, 0⟩
                (adapter data)).record_count
            else (List.foldl (processRecord env B
                (sourceFilePhase st.working B f.path
                  (env.compute_checksum f.content) dry).2 dry)
                ⟨(sourceFilePhase st.working B f.path
                  (env.compute_checksum f.content) dry).1, st.metrics, 0⟩
                (adapter data)).store).variations := by
          split
          · rw [(setRecordCount_frame _ _ _).1, (setRecordCount_frame _ _ _).2.1]
            exact ⟨hf1, hf2⟩
          · exact ⟨hf1, hf2⟩
        refine ⟨hw2, ?_⟩
        split
        · rw [(setRecordCount_frame _ _ _).1, (setRecordCount_frame _ _ _).2.1]
          exact ⟨hf1, hf2⟩
        · exact hc
  · simp only [Bool.not_eq_true] at hf
    simp only [hf, Bool.not_false, if_true]
    exact ⟨hw, hc⟩

theorem foldl_processFile_inv (env : Env) (adapter : Json → List PyRecord)
    (B : Nat) (dry resume : Bool) :
    ∀ (files : List IFile) (st : RunState),
      (uniqSeedList st.working.seeds ∧ uniqVarList st.working.variations) →
      (uniqSeedList st.committed.seeds ∧ uniqVarList st.committed.variations) →
      (uniqSeedList (files.foldl (processFile env adapter B dry resume) st).committed.seeds ∧
       uniqVarList (files.foldl (processFile env adapter B dry resume) st).committed.variations) := by
  intro files
  induction files with
  | nil => intro st _ hc; exact hc
  | cons f rest ih =>
    intro st hw hc
    rw [List.foldl_cons]
    obtain ⟨hw', hc'⟩ := processFile_inv env adapter B dry resume st f hw hc
    exact ih (processFile env adapter B dry resume st f) hw' hc'

theorem ingest_inv (env : Env) (adapter : Json → List PyRecord) (bn : String)
    (files : List IFile) (dry resume : Bool) (s0 : Store)
    (hu : uniqSeedList s0.seeds) (hv : uniqVarList s0.variations) :
    uniqSeedList (ingest_batch env adapter bn files dry resume s0).2.seeds ∧
    uniqVarList (ingest_batch env adapter bn files dry resume s0).2.variations := by
  unfold ingest_batch
  dsimp only
  apply foldl_processFile_inv
  · constructor
    · rw [(gocbatch_frame s0 bn).1]
      exact hu
    · rw [(gocbatch_frame s0 bn).2.1]
      exact hv
  · exact ⟨hu, hv⟩

/-- C1: every reachable durable store has at most one Seed row per
distinct normalized text and at most one Variation row per
(seed, normalized-variation) pair; and concretely, ingesting the same
canonical record ("Ahmed"/"Ahmad") in two batches leaves exactly one
Seed row for the normalized seed text, exactly one Variation row for
that pair, and two Observation rows, both pointing at that Seed and
Variation. -/
theorem dedup_invariant :
    (∀ s : Store, Reachable s → UniqueSeeds s ∧ UniqueVariations s) ∧
    ((ingest_batch envA adA "b2" [fileA] false true
        (ingest_batch envA adA "b1" [fileA] false true emptyStore).2).2.seeds.length
        = 1 ∧
     (ingest_batch envA adA "b2" [fileA] false true
        (ingest_batch envA adA "b1" [fileA] false true
          emptyStore).2).2.variations.length = 1 ∧
     (ingest_batch envA adA "b2" [fileA] false true
        (ingest_batch envA adA "b1" [fileA] false true
          emptyStore).2).2.observations.length = 2 ∧
     (ingest_batch envA adA "b2" [fileA] false true
        (ingest_batch envA adA "b1" [fileA] false true
          emptyStore).2).2.seeds.countP
        (fun r => r.normalized_seed == normalize_seed "Ahmed" false) = 1 ∧
     (ingest_batch envA adA "b2" [fileA] false true
        (ingest_batch envA adA "b1" [fileA] false true
          emptyStore).2).2.variations.countP
        (fun v => v.seed_id == 1 &&
          v.normalized_variation == normalize_variation "Ahmad" false) = 1 ∧
     ∀ o ∈ (ingest_batch envA adA "b2" [fileA] false true
        (ingest_batch envA adA "b1" [fileA] false true
          emptyStore).2).2.observations, o.seed_id = 1 ∧ o.variation_id = 1) := by
  constructor
  · intro s hs
    induction hs with
    | init =>
      constructor
      · intro t
        simp [emptyStore]
      · intro sid t
        simp [emptyStore]
    | step env adapter bn files dry resume _ ih =>
      exact ingest_inv env adapter bn files dry resume _ ih.1 ih.2
  · decide

theorem dedup_invariant_witness :
    UniqueSeeds emptyStore ∧ UniqueVariations emptyStore :=
  dedup_invariant.1 emptyStore Reachable.init

/-! ### Resume-skip machinery (claims C9, C2) -/

theorem setRecordCount_HasSF (s : Store) (i : Option Nat) (cnt : Nat)
    {Bk : Nat} {c : String} (h : HasSF s.source_files Bk c) :
    HasSF (setRecordCount s i cnt).source_files Bk c := by
  obtain ⟨row, hm, h1, h2⟩ := h
  obtain ⟨row', hm', hb, hp, hc⟩ := setRecordCount_mem s i cnt hm
  exact ⟨row', hm', by rw [hb, h1], by rw [hc, h2]⟩

theorem sourceFilePhase_HasSF (s : Store) (B' : Nat) (p c' : String) (d : Bool)
    {Bk : Nat} {c : String} (h : HasSF s.source_files Bk c) :
    HasSF (sourceFilePhase s B' p c' d).1.source_files Bk c := by
  unfold sourceFilePhase
  split
  · exact h
  · obtain ⟨row, hm, h1, h2⟩ := h
    exact ⟨row, List.mem_append_left _ hm, h1, h2⟩

/-- The resume check: a later file whose (batch, checksum) key is
already present in the session is skipped with a lone
`files_skipped` bump. -/
theorem processFile_skip (env : Env) (adapter : Json → List PyRecord) (B : Nat)
    (st : RunState) (f : IFile) (hf : f.is_file = true)
    (hsf : HasSF st.working.source_files B (env.compute_checksum f.content)) :
    processFile env adapter B false true st f =
      { st with metrics :=
          { st.metrics with files_skipped := st.metrics.files_skipped + 1 } } := by
  unfold processFile
  rw [hf]
  simp only [Bool.not_true, Bool.false_eq_true, if_false]
  have hfind : (st.working.source_files.find? (fun r =>
      r.batch_id == B &&
      r.file_checksum == env.compute_checksum f.content)).isSome = true := by
    rw [List.find?_isSome]
    obtain ⟨row, hm, h1, h2⟩ := hsf
    exact ⟨row, hm, by simp [h1, h2]⟩
  rw [hfind]
  simp

/-- A regular, parseable file leaves the session holding a SourceFile
row for its (batch, checksum) key, whether it was skipped (the row was
already there) or processed (the row was flushed and committed). -/
theorem processFile_establishes (env : Env) (adapter : Json → List PyRecord)
    (B : Nat) (resume : Bool) (st : RunState) (f : IFile) (j : Json)
    (hf : f.is_file = true) (hload : env.load_json f.content = some j) :
    HasSF (processFile env adapter B false resume st f).working.source_files B
      (env.compute_checksum f.content) := by
  unfold processFile
  rw [hf]
  simp only [Bool.not_true, Bool.false_eq_true, if_false]
  by_cases hrs : (resume && (st.working.source_files.find? (fun r =>
      r.batch_id == B &&
      r.file_checksum == env.compute_checksum f.content)).isSome) = true
  · simp only [hrs, if_true]
    have hx : (st.working.source_files.find? (fun r =>
        r.batch_id == B &&
        r.file_checksum == env.compute_checksum f.content)).isSome = true := by
      rcases Bool.and_eq_true _ _ ▸ hrs with ⟨_, hx⟩
      exact hx
    rw [List.find?_isSome] at hx
    obtain ⟨row, hm, hp⟩ := hx
    simp only [Bool.and_eq_true, beq_iff_eq] at hp
    exact ⟨row, hm, hp.1, hp.2⟩
  · simp only [Bool.not_eq_true] at hrs
    simp only [hrs, Bool.false_eq_true, if_false]
    rw [hload]
    dsimp only
    simp only [sourceFilePhase, Bool.not_false, if_true, Bool.false_eq_true,
      if_false]
    have hrow : (⟨st.working.next_source_file_id, B, f.path,
        env.compute_checksum f.content, none⟩ : SourceFileRow) ∈
        (List.foldl (processRecord env B (some st.working.next_source_file_id)
            false)
          ⟨{ st.working with
               source_files := st.working.source_files ++
                 [⟨st.working.next_source_file_id, B, f.path,
                   env.compute_checksum f.content, none⟩],
               next_source_file_id := st.working.next_source_file_id + 1 },
            st.metrics, 0⟩ (adapter j)).store.source_files := by
      rw [(foldl_processRecord_frame env B
        (some st.working.next_source_file_id) false (adapter j) _).1]
      exact List.mem_append_right _ (List.mem_singleton.mpr rfl)
    exact setRecordCount_HasSF _ _ _ ⟨_, hrow, rfl, rfl⟩

/-- Every `processFile` step preserves a (batch, checksum) key already
present in the session. -/
theorem processFile_preserves_HasSF (env : Env) (adapter : Json → List PyRecord)
    (B : Nat) (dry resume : Bool) (st : RunState) (f : IFile)
    {Bk : Nat} {c : String} (h : HasSF st.working.source_files Bk c) :
    HasSF (processFile env adapter B dry resume st f).working.source_files Bk c := by
  unfold processFile
  by_cases hf : f.is_file = true
  · simp only [hf, Bool.not_true, Bool.false_eq_true, if_false]
    by_cases hrs : (resume && (st.working.source_files.find? (fun r =>
        r.batch_id == B &&
        r.file_checksum == env.compute_checksum f.content)).isSome) = true
    · simp only [hrs, if_true]
      exact h
    · simp only [Bool.not_eq_true] at hrs
      simp only [hrs, Bool.false_eq_true, if_false]
      cases hlj : env.load_json f.content with
      | none => exact h
      | some data =>
        dsimp only
        have h1 : HasSF (sourceFilePhase st.working B f.path
            (env.compute_checksum f.content) dry).1.source_files Bk c :=
          sourceFilePhase_HasSF _ _ _ _ _ h
        have h2 : HasSF (List.foldl (processRecord env B
            (sourceFilePhase st.working B f.path
              (env.compute_checksum f.content) dry).2 dry)
            ⟨(sourceFilePhase st.working B f.path
              (env.compute_checksum f.content) dry).1, st.metrics, 0⟩
            (adapter data)).store.source_files Bk c := by
          rw [(foldl_processRecord_frame env B
            (sourceFilePhase st.working B f.path
              (env.compute_checksum f.content) dry).2 dry (adapter data) _).1]
          exact h1
        split
        · exact setRecordCount_HasSF _ _ _ h2
        · exact h2
  · simp only [Bool.not_eq_true] at hf
    simp only [hf, Bool.not_false, if_true]
    exact h

theorem foldl_preserves_HasSF (env : Env) (adapter : Json → List PyRecord)
    (B : Nat) (dry resume : Bool) :
    ∀ (files : List IFile) (st : RunState) {Bk : Nat} {c : String},
      HasSF st.working.source_files Bk c →
      HasSF (files.foldl (processFile env adapter B dry resume) st).working.source_files
        Bk c := by
  intro files
  induction files with
  | nil => intro st _ _ h; exact h
  | cons f rest ih =>
    intro st Bk c h
    rw [List.foldl_cons]
    exact ih _ (processFile_preserves_HasSF env adapter B dry resume st f h)

/-- C9, counterexample: the claim quantifies over every `resume=true`
run, but in a dry run no SourceFile row is ever created, so a second
byte-identical file is NOT skipped: over two identical files a dry run
reports zero skips and two observations. -/
theorem identical_files_not_skipped_in_dry_run :
    fileA'.content = fileA.content ∧
    (ingest_batch envA adA "b9" [fileA, fileA'] true true
      emptyStore).1.files_skipped = 0 ∧
    (ingest_batch envA adA "b9" [fileA, fileA'] true true
      emptyStore).1.observations_inserted = 2 := by
  decide

/-- C9 (amended): in a NON-dry-run `ingest_batch` loop with
`resume=true`, once a regular file with parseable content has been
handled, any later file of the run with byte-identical content is
skipped — the step for it only increments `files_skipped`, changing no
store state and contributing no observations — because the earlier
identical file's SourceFile row reaches the session (and is committed
with that file) before the later file's resume check; this holds
already on the very first run over a directory, as the concrete
two-identical-files run shows (one observation, one skip). -/
theorem later_identical_file_skipped :
    (∀ (env : Env) (adapter : Json → List PyRecord) (B : Nat)
        (files1 : List IFile) (f1 : IFile) (files2 : List IFile) (f2 : IFile)
        (st : RunState) (j : Json),
      f1.is_file = true → f2.is_file = true →
      f2.content = f1.content →
      env.load_json f1.content = some j →
      processFile env adapter B false true
        ((files1 ++ f1 :: files2).foldl (processFile env adapter B false true) st)
        f2 =
        { (files1 ++ f1 :: files2).foldl (processFile env adapter B false true)
            st with
          metrics := { ((files1 ++ f1 :: files2).foldl
              (processFile env adapter B false true) st).metrics with
            files_skipped := ((files1 ++ f1 :: files2).foldl
              (processFile env adapter B false true)
              st).metrics.files_skipped + 1 } }) ∧
    ((ingest_batch envA adA "b9" [fileA, fileA'] false true
        emptyStore).1.files_skipped = 1 ∧
     (ingest_batch envA adA "b9" [fileA, fileA'] false true
        emptyStore).1.observations_inserted = 1) := by
  refine ⟨?_, by decide⟩
  intro env adapter B files1 f1 files2 f2 st j hf1 hf2 hcontent hload
  apply processFile_skip env adapter B _ f2 hf2
  rw [hcontent, List.foldl_append, List.foldl_cons]
  apply foldl_preserves_HasSF
  exact processFile_establishes env adapter B true _ f1 j hf1 hload

theorem later_identical_file_skipped_witness :
    processFile envA adA 1 false true
      (([] ++ fileA :: []).foldl (processFile envA adA 1 false true)
        ⟨emptyStore, emptyStore, Metrics.init⟩) fileA' =
      { ([] ++ fileA :: []).foldl (processFile envA adA 1 false true)
          ⟨emptyStore, emptyStore, Metrics.init⟩ with
        metrics := { (([] ++ fileA :: []).foldl (processFile envA adA 1 false true)
            ⟨emptyStore, emptyStore, Metrics.init⟩).metrics with
          files_skipped := (([] ++ fileA :: []).foldl
            (processFile envA adA 1 false true)
            ⟨emptyStore, emptyStore, Metrics.init⟩).metrics.files_skipped + 1 } } :=
  later_identical_file_skipped.1 envA adA 1 [] fileA [] fileA'
    ⟨emptyStore, emptyStore, Metrics.init⟩ Json.null rfl rfl rfl rfl

/-! ### Batch/commit structure of a run (claim C2) -/

theorem ingest_batch_eq (env : Env) (adapter : Json → List PyRecord) (bn : String)
    (files : List IFile) (dry resume : Bool) (s0 : Store) :
    ingest_batch env adapter bn files dry resume s0 =
      ((files.foldl (processFile env adapter (_get_or_create_batch s0 bn).1.id
          dry resume) ⟨(_get_or_create_batch s0 bn).2, s0, Metrics.init⟩).metrics,
       (files.foldl (processFile env adapter (_get_or_create_batch s0 bn).1.id
          dry resume) ⟨(_get_or_create_batch s0 bn).2, s0, Metrics.init⟩).committed) := by
  unfold ingest_batch
  dsimp only

theorem processFile_batches (env : Env) (adapter : Json → List PyRecord) (B : Nat)
    (dry resume : Bool) (st : RunState) (f : IFile) :
    (processFile env adapter B dry resume st f).working.batches =
      st.working.batches ∧
    (processFile env adapter B dry resume st f).working.next_batch_id =
      st.working.next_batch_id ∧
    ((processFile env adapter B dry resume st f).committed = st.committed ∨
     (processFile env adapter B dry resume st f).committed =
       (processFile env adapter B dry resume st f).working) := by
  unfold processFile
  by_cases hf : f.is_file = true
  · simp only [hf, Bool.not_true, Bool.false_eq_true, if_false]
    by_cases hrs : (resume && (st.working.source_files.find? (fun r =>
        r.batch_id == B &&
        r.file_checksum == env.compute_checksum f.content)).isSome) = true
    · simp only [hrs, if_true]
      refine ⟨?_, ?_, Or.inl ?_⟩ <;> trivial
    · simp only [Bool.not_eq_true] at hrs
      simp only [hrs, Bool.false_eq_true, if_false]
      cases hlj : env.load_json f.content with
      | none => refine ⟨?_, ?_, Or.inl ?_⟩ <;> trivial
      | some data =>
        dsimp only
        have hb : (if !dry then
            setRecordCount (List.foldl (processRecord env B
              (sourceFilePhase st.working B f.path
                (env.compute_checksum f.content) dry).2 dry)
              ⟨(sourceFilePhase st.working B f.path
                (env.compute_checksum f.content) dry).1, st.metrics, 0⟩
              (adapter data)).store
              (sourceFilePhase st.working B f.path
                (env.compute_checksum f.content) dry).2
              (List.foldl (processRecord env B
                (sourceFilePhase st.working B f.path
                  (env.compute_checksum f.content) dry).2 dry)
                ⟨(sourceFilePhase st.working B f.path
                  (env.compute_checksum f.content) dry).1, st.metrics, 0⟩
                (adapter data)).record_count
          else (List.foldl (processRecord env B
              (sourceFilePhase st.working B f.path
                (env.compute_checksum f.content) dry).2 dry)
              ⟨(sourceFilePhase st.working B f.path
                (env.compute_checksum f.content) dry).1, st.metrics, 0⟩
              (adapter data)).store).batches = st.working.batches ∧
          (if !dry then
            setRecordCount (List.foldl (processRecord env B
              (sourceFilePhase st.working B f.path
                (env.compute_checksum f.content) dry).2 dry)
              ⟨(sourceFilePhase st.working B f.path
                (env.compute_checksum f.content) dry).1, st.metrics, 0⟩
              (adapter data)).store
              (sourceFilePhase st.working B f.path
                (env.compute_checksum f.content) dry).2
              (List.foldl (processRecord env B
                (sourceFilePhase st.working B f.path
                  (env.compute_checksum f.content) dry).2 dry)
                ⟨(sourceFilePhase st.working B f.path
                  (env.compute_checksum f.content) dry).1, st.metrics, 0⟩
                (adapter data)).record_count
          else (List.foldl (processRecord env B
              (sourceFilePhase st.working B f.path
                (env.compute_checksum f.content) dry).2 dry)
              ⟨(sourceFilePhase st.working B f.path
                (env.compute_checksum f.content) dry).1, st.metrics, 0⟩
              (adapter data)).store).next_batch_id = st.working.next_batch_id := by
          have hfold := foldl_processRecord_frame env B
            (sourceFilePhase st.working B f.path
              (env.compute_checksum f.content) dry).2 dry (adapter data)
            ⟨(sourceFilePhase st.working B f.path
              (env.compute_checksum f.content) dry).1, st.metrics, 0⟩
          have hsp := sourceFilePhase_frame st.working B f.path
            (env.compute_checksum f.content) dry
          constructor <;> split
          · rw [(setRecordCount_frame _ _ _).2.2.2.1, hfold.2.1]
            exact hsp.2.2.2.1
          · rw [hfold.2.1]
            exact hsp.2.2.2.1
          · rw [(setRecordCount_frame _ _ _).2.2.2.2.2, hfold.2.2.1]
            exact hsp.2.2.2.2.2
          · rw [hfold.2.2.1]
            exact hsp.2.2.2.2.2
        refine ⟨hb.1, hb.2, ?_⟩
        split
        · exact Or.inr rfl
        · exact Or.inl rfl
  · simp only [Bool.not_eq_true] at hf
    simp only [hf, Bool.not_false, if_true]
    refine ⟨?_, ?_, Or.inl ?_⟩ <;> trivial

theorem foldl_batches (env : Env) (adapter : Json → List PyRecord) (B : Nat)
    (dry resume : Bool) :
    ∀ (files : List IFile) (st : RunState),
      (files.foldl (processFile env adapter B dry resume) st).working.batches =
        st.working.batches ∧
      (files.foldl (processFile env adapter B dry resume) st).working.next_batch_id =
        st.working.next_batch_id ∧
      ((files.foldl (processFile env adapter B dry resume) st).committed =
        st.committed ∨
       (files.foldl (processFile env adapter B dry resume) st).committed.batches =
        st.working.batches) := by
  intro files
  induction files with
  | nil => intro st; refine ⟨?_, ?_, Or.inl ?_⟩ <;> trivial
  | cons f rest ih =>
    intro st
    rw [List.foldl_cons]
    obtain ⟨a1, a2, a3⟩ := ih (processFile env adapter B dry resume st f)
    obtain ⟨b1, b2, b3⟩ := processFile_batches env adapter B dry resume st f
    refine ⟨by rw [a1, b1], by rw [a2, b2], ?_⟩
    rcases a3 with a3 | a3
    · rcases b3 with b3 | b3
      · exact Or.inl (by rw [a3, b3])
      · exact Or.inr (by rw [a3, b3, b1])
    · exact Or.inr (by rw [a3, b1])

theorem processFile_nondry_cases (env : Env) (adapter : Json → List PyRecord)
    (B : Nat) (resume : Bool) (st : RunState) (f : IFile) :
    ((processFile env adapter B false resume st f).working = st.working ∧
     (processFile env adapter B false resume st f).committed = st.committed) ∨
    (processFile env adapter B false resume st f).committed =
      (processFile env adapter B false resume st f).working := by
  unfold processFile
  by_cases hf : f.is_file = true
  · simp only [hf, Bool.not_true, Bool.false_eq_true, if_false]
    by_cases hrs : (resume && (st.working.source_files.find? (fun r =>
        r.batch_id == B &&
        r.file_checksum == env.compute_checksum f.content)).isSome) = true
    · simp only [hrs, if_true]
      refine Or.inl ⟨?_, ?_⟩ <;> trivial
    · simp only [Bool.not_eq_true] at hrs
      simp only [hrs, Bool.false_eq_true, if_false]
      cases hlj : env.load_json f.content with
      | none => refine Or.inl ⟨?_, ?_⟩ <;> trivial
      | some data =>
        dsimp only
        simp only [Bool.not_false, if_true]
        refine Or.inr ?_
        trivial
  · simp only [Bool.not_eq_true] at hf
    simp only [hf, Bool.not_false, if_true]
    refine Or.inl ⟨?_, ?_⟩ <;> trivial

theorem foldl_sync (env : Env) (adapter : Json → List PyRecord) (B : Nat)
    (resume : Bool) :
    ∀ (files : List IFile) (st : RunState),
      st.working.source_files = st.committed.source_files →
      (files.foldl (processFile env adapter B false resume) st).working.source_files =
        (files.foldl (processFile env adapter B false resume) st).committed.source_files := by
  intro files
  induction files with
  | nil => intro st h; exact h
  | cons f rest ih =>
    intro st h
    rw [List.foldl_cons]
    apply ih
    rcases processFile_nondry_cases env adapter B resume st f with ⟨h1, h2⟩ | h1
    · rw [h1, h2]
      exact h
    · rw [h1]

theorem processFile_commits (env : Env) (adapter : Json → List PyRecord) (B : Nat)
    (resume : Bool) (st : RunState) (f : IFile) (j : Json)
    (hf : f.is_file = true)
    (hns : (resume && (st.working.source_files.find? (fun r =>
      r.batch_id == B &&
      r.file_checksum == env.compute_checksum f.content)).isSome) = false)
    (hload : env.load_json f.content = some j) :
    (processFile env adapter B false resume st f).committed =
      (processFile env adapter B false resume st f).working := by
  unfold processFile
  rw [hf]
  simp only [Bool.not_true, Bool.false_eq_true, if_false]
  rw [hns]
  simp only [Bool.false_eq_true, if_false]
  rw [hload]
  dsimp only
  simp

theorem foldl_establishes (env : Env) (adapter : Json → List PyRecord) (B : Nat)
    (resume : Bool) :
    ∀ (files : List IFile) (st : RunState),
      (∀ f ∈ files, f.is_file = true ∧ (env.load_json f.content).isSome) →
      ∀ f ∈ files,
        HasSF (files.foldl (processFile env adapter B false resume)
            st).working.source_files
          B (env.compute_checksum f.content) := by
  intro files
  induction files with
  | nil => intro st _ f hf; simp at hf
  | cons g rest ih =>
    intro st hcond f hf
    rw [List.foldl_cons]
    rcases List.mem_cons.mp hf with rfl | hf
    · obtain ⟨hreg, hload⟩ := hcond f (List.mem_cons_self _ _)
      obtain ⟨j, hj⟩ := Option.isSome_iff_exists.mp hload
      exact foldl_preserves_HasSF env adapter B false resume rest _
        (processFile_establishes env adapter B resume st f j hreg hj)
    · exact ih _ (fun x hx => hcond x (List.mem_cons_of_mem _ hx)) f hf

theorem foldl_all_skip (env : Env) (adapter : Json → List PyRecord) (B : Nat) :
    ∀ (gs : List IFile) (st : RunState),
      (∀ g ∈ gs, g.is_file = true ∧
        HasSF st.working.source_files B (env.compute_checksum g.content)) →
      gs.foldl (processFile env adapter B false true) st =
        { st with metrics := { st.metrics with
            files_skipped := st.metrics.files_skipped + gs.length } } := by
  intro gs
  induction gs with
  | nil =>
    intro st _
    simp
  | cons g rest ih =>
    intro st h
    rw [List.foldl_cons,
      processFile_skip env adapter B st g (h g (List.mem_cons_self _ _)).1
        (h g (List.mem_cons_self _ _)).2]
    rw [ih { st with metrics := { st.metrics with
        files_skipped := st.metrics.files_skipped + 1 } }
      (fun x hx => ⟨(h x (List.mem_cons_of_mem _ hx)).1,
        (h x (List.mem_cons_of_mem _ hx)).2⟩)]
    dsimp only
    simp only [List.length_cons]
    rw [show st.metrics.files_skipped + 1 + rest.length
        = st.metrics.files_skipped + (rest.length + 1) from by omega]

theorem setRecordCount_batch_ids (s : Store) (i : Option Nat) (cnt : Nat) :
    ∀ r' ∈ (setRecordCount s i cnt).source_files,
      ∃ r ∈ s.source_files, r'.batch_id = r.batch_id := by
  intro r' h
  cases i with
  | none => exact ⟨r', h, rfl⟩
  | some n =>
    unfold setRecordCount at h
    simp only [List.mem_map] at h
    obtain ⟨r, hr, heq⟩ := h
    refine ⟨r, hr, ?_⟩
    rw [← heq]
    split <;> rfl

theorem processFile_sf_ids (env : Env) (adapter : Json → List PyRecord) (B : Nat)
    (dry resume : Bool) (st : RunState) (f : IFile)
    (hB : B < st.working.next_batch_id)
    (hw : ∀ sf ∈ st.working.source_files, sf.batch_id < st.working.next_batch_id) :
    ∀ sf ∈ (processFile env adapter B dry resume st f).working.source_files,
      sf.batch_id < st.working.next_batch_id := by
  unfold processFile
  by_cases hf : f.is_file = true
  · simp only [hf, Bool.not_true, Bool.false_eq_true, if_false]
    by_cases hrs : (resume && (st.working.source_files.find? (fun r =>
        r.batch_id == B &&
        r.file_checksum == env.compute_checksum f.content)).isSome) = true
    · simp only [hrs, if_true]
      exact hw
    · simp only [Bool.not_eq_true] at hrs
      simp only [hrs, Bool.false_eq_true, if_false]
      cases hlj : env.load_json f.content with
      | none => exact hw
      | some data =>
        dsimp only
        have hsp : ∀ sf ∈ (sourceFilePhase st.working B f.path
            (env.compute_checksum f.content) dry).1.source_files,
            sf.batch_id < st.working.next_batch_id := by
          unfold sourceFilePhase
          split
          · exact hw
          · intro sf hsf
            rcases List.mem_append.mp hsf with hsf | hsf
            · exact hw sf hsf
            · rw [List.mem_singleton.mp hsf]
              exact hB
        have hfold : ∀ sf ∈ (List.foldl (processRecord env B
            (sourceFilePhase st.working B f.path
              (env.compute_checksum f.content) dry).2 dry)
            ⟨(sourceFilePhase st.working B f.path
              (env.compute_checksum f.content) dry).1, st.metrics, 0⟩
            (adapter data)).store.source_files,
            sf.batch_id < st.working.next_batch_id := by
          rw [(foldl_processRecord_frame env B
            (sourceFilePhase st.working B f.path
              (env.compute_checksum f.content) dry).2 dry (adapter data) _).1]
          exact hsp
        split
        · intro sf hsf
          obtain ⟨r, hr, heq⟩ := setRecordCount_batch_ids _ _ _ sf hsf
          rw [heq]
          exact hfold r hr
        · exact hfold
  · simp only [Bool.not_eq_true] at hf
    simp only [hf, Bool.not_false, if_true]
    exact hw

theorem processFile_inv2 (env : Env) (adapter : Json → List PyRecord) (B : Nat)
    (dry resume : Bool) (st : RunState) (f : IFile)
    (hB : B < st.working.next_batch_id)
    (hw1 : ∀ sf ∈ st.working.source_files, sf.batch_id < st.working.next_batch_id)
    (hw2 : ∀ b ∈ st.working.batches, b.id < st.working.next_batch_id)
    (hc : sfBound st.committed ∧ batchBound st.committed) :
    (∀ sf ∈ (processFile env adapter B dry resume st f).working.source_files,
      sf.batch_id < (processFile env adapter B dry resume st f).working.next_batch_id) ∧
    (∀ b ∈ (processFile env adapter B dry resume st f).working.batches,
      b.id < (processFile env adapter B dry resume st f).working.next_batch_id) ∧
    (sfBound (processFile env adapter B dry resume st f).committed ∧
     batchBound (processFile env adapter B dry resume st f).committed) := by
  obtain ⟨e1, e2, e3⟩ := processFile_batches env adapter B dry resume st f
  refine ⟨?_, ?_, ?_⟩
  · rw [e2]
    exact processFile_sf_ids env adapter B dry resume st f hB hw1
  · rw [e1, e2]
    exact hw2
  · rcases e3 with e3 | e3
    · rw [e3]
      exact hc
    · rw [e3]
      constructor
      · intro sf hsf
        rw [e2]
        exact processFile_sf_ids env adapter B dry resume st f hB hw1 sf hsf
      · intro b hb
        rw [e2]
        rw [e1] at hb
        exact hw2 b hb

theorem foldl_inv2 (env : Env) (adapter : Json → List PyRecord) (B : Nat)
    (dry resume : Bool) :
    ∀ (files : List IFile) (st : RunState),
      B < st.working.next_batch_id →
      (∀ sf ∈ st.working.source_files, sf.batch_id < st.working.next_batch_id) →
      (∀ b ∈ st.working.batches, b.id < st.working.next_batch_id) →
      (sfBound st.committed ∧ batchBound st.committed) →
      sfBound (files.foldl (processFile env adapter B dry resume) st).committed ∧
      batchBound (files.foldl (processFile env adapter B dry resume) st).committed := by
  intro files
  induction files with
  | nil => intro st _ _ _ hc; exact hc
  | cons f rest ih =>
    intro st hB hw1 hw2 hc
    rw [List.foldl_cons]
    obtain ⟨e1, e2, _⟩ := processFile_batches env adapter B dry resume st f
    obtain ⟨i1, i2, i3⟩ := processFile_inv2 env adapter B dry resume st f hB hw1 hw2 hc
    exact ih _ (by rw [e2]; exact hB) i1 i2 i3

theorem ingest_inv2 (env : Env) (adapter : Json → List PyRecord) (bn : String)
    (files : List IFile) (dry resume : Bool) (s0 : Store)
    (h1 : sfBound s0) (h2 : batchBound s0) :
    sfBound (ingest_batch env adapter bn files dry resume s0).2 ∧
    batchBound (ingest_batch env adapter bn files dry resume s0).2 := by
  rw [ingest_batch_eq]
  dsimp only
  apply foldl_inv2
  · unfold _get_or_create_batch
    cases hf : s0.batches.find? (fun b => b.batch_name == bn) with
    | some b =>
      dsimp only
      exact h2 b (List.mem_of_find?_eq_some hf)
    | none =>
      dsimp only
      exact Nat.lt_succ_self _
  · unfold _get_or_create_batch
    cases hf : s0.batches.find? (fun b => b.batch_name == bn) with
    | some b =>
      dsimp only
      exact h1
    | none =>
      dsimp only
      intro sf hsf
      exact Nat.lt_succ_of_lt (h1 sf hsf)
  · unfold _get_or_create_batch
    cases hf : s0.batches.find? (fun b => b.batch_name == bn) with
    | some b =>
      dsimp only
      exact h2
    | none =>
      dsimp only
      intro b hb
      rcases List.mem_append.mp hb with hb | hb
      · exact Nat.lt_succ_of_lt (h2 b hb)
      · rw [List.mem_singleton.mp hb]
        exact Nat.lt_succ_self _
  · exact ⟨h1, h2⟩

theorem reachable_inv2 : ∀ s : Store, Reachable s → sfBound s ∧ batchBound s := by
  intro s hs
  induction hs with
  | init =>
    constructor <;> intro x hx <;> simp [emptyStore] at hx
  | step env adapter bn files dry resume _ ih =>
    exact ingest_inv2 env adapter bn files dry resume _ ih.1 ih.2

theorem goc_batch_some (s : Store) (bn : String) (b : BatchRow)
    (h : s.batches.find? (fun r => r.batch_name == bn) = some b) :
    _get_or_create_batch s bn = (b, s) := by
  unfold _get_or_create_batch
  rw [h]

/-- C2: after a non-dry-run ingestion of a directory of regular,
parseable files into a batch (from any reachable store), re-running
`ingest_batch` with `resume=true` over files with the same contents —
under arbitrary names and paths, since the skip is keyed purely on the
content checksum — reports `files_skipped` equal to the file count and
`observations_inserted = 0`, and returns the durable store exactly as
the first run left it. -/
theorem resume_second_run_skips_all (env : Env) (adapter : Json → List PyRecord)
    (bn : String) (files files2 : List IFile) (s0 : Store)
    (hreach : Reachable s0)
    (hfiles : ∀ f ∈ files, f.is_file = true ∧ (env.load_json f.content).isSome)
    (hreg2 : ∀ g ∈ files2, g.is_file = true)
    (hmatch : files2.map IFile.content = files.map IFile.content) :
    (ingest_batch env adapter bn files2 false true
        (ingest_batch env adapter bn files false true s0).2).1.files_skipped =
      files2.length ∧
    (ingest_batch env adapter bn files2 false true
        (ingest_batch env adapter bn files false true s0).2).1.observations_inserted
      = 0 ∧
    (ingest_batch env adapter bn files2 false true
        (ingest_batch env adapter bn files false true s0).2).2 =
      (ingest_batch env adapter bn files false true s0).2 := by
  obtain ⟨hsf0, hbb0⟩ := reachable_inv2 s0 hreach
  cases files with
  | nil =>
    have h2 : files2 = [] := by
      have hlen := congrArg List.length hmatch
      simpa using hlen
    subst h2
    exact ⟨rfl, rfl, rfl⟩
  | cons f0 rest =>
    rw [ingest_batch_eq env adapter bn (f0 :: rest) false true s0]
    dsimp only
    have hfb := foldl_batches env adapter (_get_or_create_batch s0 bn).1.id
      false true (f0 :: rest)
      ⟨(_get_or_create_batch s0 bn).2, s0, Metrics.init⟩
    have hgoc2 : _get_or_create_batch
        ((f0 :: rest).foldl (processFile env adapter
          (_get_or_create_batch s0 bn).1.id false true)
          ⟨(_get_or_create_batch s0 bn).2, s0, Metrics.init⟩).committed bn =
        ((_get_or_create_batch s0 bn).1,
         ((f0 :: rest).foldl (processFile env adapter
          (_get_or_create_batch s0 bn).1.id false true)
          ⟨(_get_or_create_batch s0 bn).2, s0, Metrics.init⟩).committed) := by
      cases hf : s0.batches.find? (fun b => b.batch_name == bn) with
      | some b =>
        have hW : _get_or_create_batch s0 bn = (b, s0) := goc_batch_some s0 bn b hf
        have hc1b : ((f0 :: rest).foldl (processFile env adapter
            (_get_or_create_batch s0 bn).1.id false true)
            ⟨(_get_or_create_batch s0 bn).2, s0, Metrics.init⟩).committed.batches =
            s0.batches := by
          rcases hfb.2.2 with h | h
          · rw [h]
          · rw [h, hW]
        rw [goc_batch_some _ bn b (by rw [hc1b]; exact hf), hW]
      | none =>
        have hW : _get_or_create_batch s0 bn =
            (⟨s0.next_batch_id, bn⟩,
             { s0 with batches := s0.batches ++ [⟨s0.next_batch_id, bn⟩],
                       next_batch_id := s0.next_batch_id + 1 }) := by
          unfold _get_or_create_batch
          rw [hf]
        have hf0 := hfiles f0 (List.mem_cons_self _ _)
        obtain ⟨j0, hj0⟩ := Option.isSome_iff_exists.mp hf0.2
        have hnskip : (true &&
            ((⟨(_get_or_create_batch s0 bn).2, s0, Metrics.init⟩ :
                RunState).working.source_files.find?
              (fun r => r.batch_id == (_get_or_create_batch s0 bn).1.id &&
                r.file_checksum == env.compute_checksum f0.content)).isSome) =
            false := by
          simp only [Bool.true_and]
          have hnone : (⟨(_get_or_create_batch s0 bn).2, s0, Metrics.init⟩ :
              RunState).working.source_files.find?
              (fun r => r.batch_id == (_get_or_create_batch s0 bn).1.id &&
                r.file_checksum == env.compute_checksum f0.content) = none := by
            show (_get_or_create_batch s0 bn).2.source_files.find? _ = none
            rw [batch_source_files, List.find?_eq_none]
            intro row hrow
            simp only [Bool.and_eq_true, beq_iff_eq, not_and]
            intro hbid
            exfalso
            rw [hW] at hbid
            dsimp only at hbid
            have := hsf0 row hrow
            omega
          rw [hnone]
          rfl
        have hcommit := processFile_commits env adapter
          (_get_or_create_batch s0 bn).1.id true
          ⟨(_get_or_create_batch s0 bn).2, s0, Metrics.init⟩ f0 j0 hf0.1
          hnskip hj0
        have hstep := processFile_batches env adapter
          (_get_or_create_batch s0 bn).1.id false true
          ⟨(_get_or_create_batch s0 bn).2, s0, Metrics.init⟩ f0
        have hfb2 := foldl_batches env adapter
          (_get_or_create_batch s0 bn).1.id false true rest
          (processFile env adapter (_get_or_create_batch s0 bn).1.id false true
            ⟨(_get_or_create_batch s0 bn).2, s0, Metrics.init⟩ f0)
        have hc1b : ((f0 :: rest).foldl (processFile env adapter
            (_get_or_create_batch s0 bn).1.id false true)
            ⟨(_get_or_create_batch s0 bn).2, s0, Metrics.init⟩).committed.batches =
            s0.batches ++ [⟨s0.next_batch_id, bn⟩] := by
          rw [List.foldl_cons]
          have hWb : (_get_or_create_batch s0 bn).2.batches =
              s0.batches ++ [⟨s0.next_batch_id, bn⟩] := by
            rw [hW]
          rcases hfb2.2.2 with h | h
          · rw [h, hcommit, hstep.1]
            exact hWb
          · rw [h, hstep.1]
            exact hWb
        rw [goc_batch_some _ bn ⟨s0.next_batch_id, bn⟩
          (by rw [hc1b, List.find?_append, hf]; simp [List.find?]), hW]
    rw [ingest_batch_eq env adapter bn files2 false true _]
    rw [hgoc2]
    dsimp only
    have hsync : ((f0 :: rest).foldl (processFile env adapter
        (_get_or_create_batch s0 bn).1.id false true)
        ⟨(_get_or_create_batch s0 bn).2, s0, Metrics.init⟩).working.source_files =
        ((f0 :: rest).foldl (processFile env adapter
        (_get_or_create_batch s0 bn).1.id false true)
        ⟨(_get_or_create_batch s0 bn).2, s0, Metrics.init⟩).committed.source_files := by
      apply foldl_sync
      show (_get_or_create_batch s0 bn).2.source_files = s0.source_files
      exact batch_source_files s0 bn
    have hest := foldl_establishes env adapter (_get_or_create_batch s0 bn).1.id
      true (f0 :: rest) ⟨(_get_or_create_batch s0 bn).2, s0, Metrics.init⟩ hfiles
    have hHas : ∀ g ∈ files2, g.is_file = true ∧
        HasSF (⟨((f0 :: rest).foldl (processFile env adapter
            (_get_or_create_batch s0 bn).1.id false true)
            ⟨(_get_or_create_batch s0 bn).2, s0, Metrics.init⟩).committed,
          ((f0 :: rest).foldl (processFile env adapter
            (_get_or_create_batch s0 bn).1.id false true)
            ⟨(_get_or_create_batch s0 bn).2, s0, Metrics.init⟩).committed,
          Metrics.init⟩ : RunState).working.source_files
          (_get_or_create_batch s0 bn).1.id
          (env.compute_checksum g.content) := by
      intro g hg
      refine ⟨hreg2 g hg, ?_⟩
      have hgc : g.content ∈ (f0 :: rest).map IFile.content := by
        rw [← hmatch]
        exact List.mem_map_of_mem _ hg
      obtain ⟨f, hfmem, hfc⟩ := List.mem_map.mp hgc
      have hfh := hest f hfmem
      rw [hsync] at hfh
      show HasSF ((f0 :: rest).foldl (processFile env adapter
          (_get_or_create_batch s0 bn).1.id false true)
          ⟨(_get_or_create_batch s0 bn).2, s0,
            Metrics.init⟩).committed.source_files _ _
      rw [show env.compute_checksum g.content =
          env.compute_checksum f.content from by rw [hfc]]
      exact hfh
    rw [foldl_all_skip env adapter (_get_or_create_batch s0 bn).1.id files2 _ hHas]
    exact ⟨by simp [Metrics.init], rfl, rfl⟩

theorem resume_second_run_skips_all_witness :
    (ingest_batch envA adA "b" [fileA'] false true
        (ingest_batch envA adA "b" [fileA] false true emptyStore).2).1.files_skipped
      = 1 ∧
    (ingest_batch envA adA "b" [fileA'] false true
        (ingest_batch envA adA "b" [fileA] false true
          emptyStore).2).1.observations_inserted = 0 ∧
    (ingest_batch envA adA "b" [fileA'] false true
        (ingest_batch envA adA "b" [fileA] false true emptyStore).2).2 =
      (ingest_batch envA adA "b" [fileA] false true emptyStore).2 := by
  have h := resume_second_run_skips_all envA adA "b" [fileA] [fileA'] emptyStore
    Reachable.init
    (by intro f hf; simp only [List.mem_singleton] at hf; subst hf
        exact ⟨rfl, rfl⟩)
    (by intro g hg; simp only [List.mem_singleton] at hg; subst hg; rfl)
    rfl
  exact h

theorem unrecognized_shape_witness :
    parse (Json.jarr JsonList.nil) = [] ∧
    (ingest_batch envB parse "b" [fileA] false true emptyStore).1.files_processed = 1 ∧
    (ingest_batch envB parse "b" [fileA] false true emptyStore).1.invalid_records = 0 :=
  ⟨unrecognized_shape_is_empty_not_invalid.1 (Json.jarr JsonList.nil) trivial,
   (unrecognized_shape_is_empty_not_invalid.2 envB "b" fileA emptyStore
     (Json.jarr JsonList.nil) rfl rfl rfl (by decide)).1,
   (unrecognized_shape_is_empty_not_invalid.2 envB "b" fileA emptyStore
     (Json.jarr JsonList.nil) rfl rfl rfl (by decide)).2.1⟩

end SeedPipeline
